import Mathlib

/-!
Shallow embedding of the einops-style `rearrange` implementation
(`parser.py` and `funcs.py`) and proofs about it.

Python exceptions are modelled by an explicit error type; fallible code
returns `Except`.  Machine integers in the source are Python arbitrary
precision integers and numpy int64 scalars; all sizes handled by the
claims are small non-negative numbers, so they are modelled as `Nat`
(numpy int64 overflow at 2^63 is outside every behaviour considered
here).  Array element values are modelled as `Int`.
-/

namespace Einops

/-- Exception classes that can escape the library code: `EinopsError`
(the library's own class, carrying its message), and the Python built-ins
`ValueError` (carrying `str(e)`), `IndexError`, `KeyError` (carrying the
offending key) and `NameError`/`UnboundLocalError`. -/
inductive PyError
  | einops (msg : String)
  | valueError (msg : String)
  | indexError
  | keyError (key : String)
  | nameError
deriving DecidableEq, Repr

/-- A single-quote character, used to build Python error-message text
such as `str(KeyError(k))`. -/
def sqChar : String := String.singleton (Char.ofNat 39)

/-- Wrap a string in single quotes, as Python `repr` does for strings. -/
def sq (s : String) : String := sqChar ++ s ++ sqChar

/-- Python `repr` of a list of strings, e.g. `['a', 'b']`. -/
def pyReprStrList (l : List String) : String :=
  "[" ++ String.intercalate ", " (l.map sq) ++ "]"

/-- Python `repr` of a tuple of integers, e.g. `(3, 2, 8)` or `(2,)`. -/
def pyReprNatTuple (l : List Nat) : String :=
  match l with
  | [x] => "(" ++ toString x ++ ",)"
  | _ => "(" ++ String.intercalate ", " (l.map toString) ++ ")"

/-- Python `str.isspace` on a single character (ASCII whitespace). -/
def pyIsSpace (c : Char) : Bool :=
  c = ' ' || c = '\t' || c = '\n' || c = '\x0b' || c = '\x0c' || c = '\r'

/-- Count the non-overlapping occurrences of `"..."`, scanning left to
right, as Python `str.count("...")` does. -/
def countTriple : List Char → Nat
  | '.' :: '.' :: '.' :: rest => countTriple rest + 1
  | _ :: rest => countTriple rest
  | [] => 0

/-- Replace every non-overlapping occurrence of `"..."` by
`"_ellipsis_"`, scanning left to right, as Python
`str.replace("...", "_ellipsis_")` does. -/
def replaceTriple : List Char → List Char
  | '.' :: '.' :: '.' :: rest => "_ellipsis_".toList ++ replaceTriple rest
  | c :: rest => c :: replaceTriple rest
  | [] => []

/-- One element of a parsed composition: a group of axis names (the
source represents it as a plain list) or the ellipsis marker (the source
represents it as the sentinel string `"_ellipsis_"`). -/
inductive CompElem
  | group (axes : List String)
  | ellipsis
deriving DecidableEq, Repr

/-- Result of parsing one pattern half (class `ParsedExpression` in
`parser.py`).  `identifiers` is a Python `set`; it is modelled as a
duplicate-free list in insertion order, and only its membership is ever
observed apart from one error-message join. -/
structure ParsedExpression where
  has_ellipsis : Bool
  identifiers : List String
  composition : List CompElem
  actual_dim_count : Nat
deriving DecidableEq, Repr

/-- Python `set.add`: append the name unless already present. -/
def addIfNew (ids : List String) (name : String) : List String :=
  if ids.contains name then ids else ids ++ [name]

/-- Character-by-character tokenizer loop of `ParsedExpression.__init__`
(lines 34-50 of `parser.py`): `(`, `)` and the space character close the
current token; any character that is not alphanumeric, `(`, `)`, space,
`_`, `.` or whitespace is an invalid-character error.  Note that only
the literal space is a delimiter; other whitespace characters pass the
validity test and are appended to the current token. -/
def tokenizeGo : List Char → String → List String → Except String (List String)
  | [], current_token, tokens =>
    .ok (if current_token = "" then tokens else tokens ++ [current_token])
  | c :: rest, current_token, tokens =>
    if ¬ (c.isAlphanum || c = '(' || c = ')' || c = ' ' || c = '_' || c = '.' || pyIsSpace c) then
      .error ("Invalid character in pattern: " ++ sq (String.singleton c))
    else if c = '(' || c = ')' || c = ' ' then
      let tokens1 := if current_token = "" then tokens else tokens ++ [current_token]
      let tokens2 := if c ≠ ' ' then tokens1 ++ [String.singleton c] else tokens1
      tokenizeGo rest "" tokens2
    else
      tokenizeGo rest (current_token.push c) tokens

/-- The inner `add_axis_name` of `ParsedExpression.__init__` (lines
54-73 of `parser.py`): validates one identifier token and appends it to
the open bracket group or to the composition; the ellipsis placeholder
becomes an ellipsis element. -/
def add_axis_name (comp : List CompElem) (ids : List String) (bg : Option (List String))
    (name : String) : Except String (List CompElem × List String × Option (List String)) :=
  if name = "_ellipsis_" then
    match bg with
    | some _ => .error "Ellipsis inside parenthesis not allowed"
    | none => .ok (comp ++ [.ellipsis], ids, none)
  else
    match name.toList with
    | [] => .error "Empty axis name not allowed"
    | c :: _ =>
      if c.isDigit then
        .error ("Axis name cannot start with a number: " ++ sq name)
      else if ¬ (name.toList.all (fun ch => ch.isAlphanum || ch = '_')) then
        .error ("Invalid axis name: " ++ name)
      else
        match bg with
        | some g => .ok (comp, addIfNew ids name, some (g ++ [name]))
        | none => .ok (comp ++ [.group [name]], addIfNew ids name, none)

/-- Token-processing loop of `ParsedExpression.__init__` (lines 76-95 of
`parser.py`), maintaining the composition, identifier set, dimension
count and the optional open bracket group.  The count is incremented
after `add_axis_name` whenever no bracket group is open, so a top-level
ellipsis also increments it. -/
def processTokens : List String → List CompElem → List String → Nat → Option (List String) →
    Except String (List CompElem × List String × Nat)
  | [], comp, ids, adc, bg =>
    match bg with
    | some _ => .error "Unclosed parenthesis"
    | none => .ok (comp, ids, adc)
  | tok :: rest, comp, ids, adc, bg =>
    if tok = "(" then
      match bg with
      | some _ => .error "Nested parentheses not allowed"
      | none => processTokens rest comp ids adc (some [])
    else if tok = ")" then
      match bg with
      | none => .error "Unmatched closing parenthesis"
      | some [] => .error "Empty parentheses not allowed"
      | some g => processTokens rest (comp ++ [.group g]) ids (adc + 1) none
    else
      match add_axis_name comp ids bg tok with
      | .error e => .error e
      | .ok (comp1, ids1, bg1) =>
        processTokens rest comp1 ids1 (if bg1.isNone then adc + 1 else adc) bg1

/-- Parsing of one pattern half: `ParsedExpression.__init__` in
`parser.py`.  Errors are `EinopsError` messages. -/
def ParsedExpression.parse (expression : String) : Except String ParsedExpression :=
  if expression.toList = [] || expression.toList.all pyIsSpace then
    .error "Expression cannot be empty"
  else if countTriple expression.toList > 1 then
    .error "Multiple ellipsis not allowed in pattern"
  else
    let he := decide (countTriple expression.toList > 0)
    let chars := if he then replaceTriple expression.toList else expression.toList
    match tokenizeGo chars "" [] with
    | .error e => .error e
    | .ok toks =>
      match processTokens toks [] [] 0 none with
      | .error e => .error e
      | .ok (comp, ids, adc) => .ok ⟨he, ids, comp, adc⟩

/-- A Python dict mapping strings to non-negative integers, modelled as
an association list; `dictSet` updates in place or appends, so lookups
and iteration order agree with a Python dict. -/
abbrev Dict := List (String × Nat)

/-- Python dict lookup, `d.get(k)` / `k in d`. -/
def dictGet : Dict → String → Option Nat
  | [], _ => none
  | (k1, v) :: rest, k => if k1 = k then some v else dictGet rest k

/-- Python `k in d`. -/
def dictMem (d : Dict) (k : String) : Bool := (dictGet d k).isSome

/-- Python `d[k] = v`: overwrite the existing entry or append a new one. -/
def dictSet : Dict → String → Nat → Dict
  | [], k, v => [(k, v)]
  | (k1, v1) :: rest, k, v => if k1 = k then (k1, v) :: rest else (k1, v1) :: dictSet rest k v

/-- Python `d[k]`, raising `KeyError` when the key is absent. -/
def pyDictGetKE (d : Dict) (k : String) : Except PyError Nat :=
  match dictGet d k with
  | none => .error (.keyError k)
  | some v => .ok v

/-- The `np.prod` of a tuple of non-negative integers (`np.prod` of an
empty tuple is `1.0`, which compares equal to 1 in every use below). -/
def npProd (l : List Nat) : Nat := l.foldr (fun a b => a * b) 1

/-- Integer remainder as computed by `total_size % known_product` in the
source, where `known_product` is a numpy int64 scalar: numpy integer
remainder by zero emits a RuntimeWarning and evaluates to 0 instead of
raising `ZeroDivisionError` (Python dispatches the mixed
`int % np.int64` operation to numpy). -/
def npMod (a b : Nat) : Nat := if b = 0 then 0 else a % b

/-- Integer floor division by a numpy int64 scalar: division by zero
emits a RuntimeWarning and evaluates to 0 instead of raising. -/
def npDiv (a b : Nat) : Nat := if b = 0 then 0 else a / b

/-- Python list indexing `l[i]` for a non-negative index, raising
`IndexError` when out of range. -/
def pyIndex (l : List Nat) (i : Nat) : Except PyError Nat :=
  if h : i < l.length then .ok l[i] else .error .indexError

/-- Python slice `l[a:b]` for a non-negative start, with Python's
clamping and negative-end wrapping semantics. -/
def pySlice (l : List Nat) (a : Nat) (b : Int) : List Nat :=
  let e : Nat := if b < 0 then (max ((l.length : Int) + b) 0).toNat else min b.toNat l.length
  (l.take e).drop a

/-- Python `list(range(a, b))` for a non-negative start. -/
def pyRangeList (a : Nat) (b : Int) : List Nat :=
  if b ≤ (a : Int) then [] else List.range' a (b.toNat - a)

/-- Python `pattern.split("->")`: split on every non-overlapping
occurrence of the separator `->`, scanning left to right.  Splitting a
string with no separator yields one part, so `"->" in pattern` is
equivalent to the split having at least two parts. -/
def pySplitArrow : List Char → List (List Char)
  | [] => [[]]
  | '-' :: '>' :: rest => [] :: pySplitArrow rest
  | c :: rest =>
    match pySplitArrow rest with
    | part :: parts => (c :: part) :: parts
    | [] => [[c]]

/-- Python `str.strip()`: drop leading and trailing whitespace. -/
def pyStrip (l : List Char) : List Char :=
  ((l.dropWhile pyIsSpace).reverse.dropWhile pyIsSpace).reverse

/-- Test for the group variant of a composition element
(`isinstance(item, list)` in the source). -/
def isGroup : CompElem → Bool
  | .group _ => true
  | .ellipsis => false

/-- Number of group elements in a composition fragment. -/
def countGroups (l : List CompElem) : Nat := (l.filter isGroup).length

/-- The composition elements strictly after the first ellipsis element:
the source computes `composition[composition.index("_ellipsis_")+1:]`,
which always refers to the first occurrence. -/
def afterFirstEllipsis : List CompElem → List CompElem
  | [] => []
  | .ellipsis :: rest => rest
  | .group _ :: rest => afterFirstEllipsis rest

/-- A numpy array: its shape and its row-major flat element data. -/
structure Tensor where
  shape : List Nat
  data : List Int
deriving DecidableEq, Repr

/-- Total number of elements (`np.ndarray.size`). -/
def Tensor.size (t : Tensor) : Nat := npProd t.shape

/-- Message of the `ValueError` numpy raises for an impossible reshape. -/
def npReshapeErrMsg (size : Nat) (newshape : List Nat) : String :=
  "cannot reshape array of size " ++ toString size ++ " into shape " ++ pyReprNatTuple newshape

/-- The `reshape` collaborator: succeeds keeping the row-major data when
the element counts agree, otherwise raises `ValueError`. -/
def Tensor.reshape (t : Tensor) (newshape : List Nat) : Except PyError Tensor :=
  if npProd newshape = t.size then .ok ⟨newshape, t.data⟩
  else .error (.valueError (npReshapeErrMsg t.size newshape))

/-- Shape of `t.transpose(perm)`: axis `k` of the result is axis
`perm[k]` of the input. -/
def permuteShape (perm : List Nat) (shape : List Nat) : List Nat :=
  perm.map (fun k => shape.getD k 0)

/-- Index of the first occurrence of `m`, or the length when absent. -/
def idxOfNat (m : Nat) : List Nat → Nat
  | [] => 0
  | x :: rest => if x = m then 0 else idxOfNat m rest + 1

/-- Multi-index into the transpose argument corresponding to a
multi-index `idx` into the transpose result: position `perm[k]` of the
argument index equals position `k` of the result index. -/
def scatterIdx (perm : List Nat) (idx : List Nat) : List Nat :=
  (List.range perm.length).map (fun m => idx.getD (idxOfNat m perm) 0)

/-- Row-major multi-index of flat position `f` in an array of the given
shape. -/
def unflattenIdx : List Nat → Nat → List Nat
  | [], _ => []
  | _ :: rest, f => f / npProd rest :: unflattenIdx rest (f % npProd rest)

/-- Row-major flat position of a multi-index in an array of the given
shape. -/
def flattenIdx : List Nat → List Nat → Nat
  | _ :: rest, i :: is => i * npProd rest + flattenIdx rest is
  | _, _ => 0

/-- Row-major data of `transpose(perm)` applied to an array of the given
shape and data. -/
def transposeData (shape perm : List Nat) (data : List Int) : List Int :=
  (List.range (npProd (permuteShape perm shape))).map (fun f =>
    data.getD (flattenIdx shape (scatterIdx perm (unflattenIdx (permuteShape perm shape) f))) 0)

/-- Validity test numpy applies to a transpose axis list: correct length
and every axis position present (hence, by counting, no repeats). -/
def isPermutationList (perm : List Nat) (n : Nat) : Bool :=
  perm.length = n && (List.range n).all (fun m => perm.contains m)

/-- The `transpose` collaborator: permutes axes, or raises `ValueError`
(numpy's `AxisError` for out-of-range axes is a `ValueError` subclass)
when the axis list is not a valid permutation. -/
def Tensor.transpose (t : Tensor) (perm : List Nat) : Except PyError Tensor :=
  if isPermutationList perm t.shape.length then
    .ok ⟨permuteShape perm t.shape, transposeData t.shape perm t.data⟩
  else .error (.valueError "axes do not match array")

/-- Loop of `_get_shape_dict` (lines 19-54 of `funcs.py`), walking the
source composition while consuming actual dimensions.  `full` is the
whole source composition, used to recompute the groups remaining after
the first ellipsis the way `composition.index(item)` does.  The
possibly-negative `ellipsis_dims` is computed in `Int` as Python does;
when it is non-negative its `toNat` advances `current_dim`. -/
def gsdGo (shape : List Nat) (full : List CompElem) :
    List CompElem → Dict → Nat → Except PyError Dict
  | [], shape_dict, _ => .ok shape_dict
  | .group item :: rest, shape_dict, current_dim =>
    match pyIndex shape current_dim with
    | .error e => .error e
    | .ok total_size =>
      match item with
      | [axis_name] =>
        match dictGet shape_dict axis_name with
        | none => gsdGo shape full rest (dictSet shape_dict axis_name total_size) (current_dim + 1)
        | some v =>
          if v ≠ total_size then
            .error (.einops ("Inconsistent size for dimension " ++ axis_name ++ ": got " ++
              toString total_size ++ ", expected " ++ toString v))
          else gsdGo shape full rest shape_dict (current_dim + 1)
      | _ =>
        let unknown_dims := item.filter (fun dim => ¬ dictMem shape_dict dim)
        match unknown_dims with
        | [] =>
          let product := npProd (item.map (fun dim => (dictGet shape_dict dim).getD 0))
          if product ≠ total_size then
            .error (.einops ("Shape mismatch: " ++ pyReprStrList item ++ " product " ++
              toString product ++ " != " ++ toString total_size))
          else gsdGo shape full rest shape_dict (current_dim + 1)
        | [u] =>
          let known_product := npProd ((item.filter (fun dim => dictMem shape_dict dim)).map
            (fun dim => (dictGet shape_dict dim).getD 0))
          if npMod total_size known_product ≠ 0 then
            .error (.einops ("Cannot divide dimension size " ++ toString total_size ++ " by " ++
              toString known_product))
          else
            gsdGo shape full rest (dictSet shape_dict u (npDiv total_size known_product))
              (current_dim + 1)
        | _ =>
          .error (.einops ("Cannot infer sizes for multiple unknown dimensions in " ++
            pyReprStrList item))
  | .ellipsis :: rest, shape_dict, current_dim =>
    let remaining_dims := countGroups (afterFirstEllipsis full)
    let ellipsis_dims : Int := (shape.length : Int) - current_dim - remaining_dims
    if ellipsis_dims < 0 then .error (.einops "Pattern has more dimensions than tensor")
    else gsdGo shape full rest shape_dict (current_dim + ellipsis_dims.toNat)

/-- Function `_get_shape_dict` of `funcs.py`: build the mapping from
axis name to size, starting from a copy of `named_sizes`. -/
def _get_shape_dict (tensor : Tensor) (source_parsed : ParsedExpression) (named_sizes : Dict) :
    Except PyError Dict :=
  gsdGo tensor.shape source_parsed.composition source_parsed.composition named_sizes 0

/-- Inner steps for one multi-axis source group in pass 1 of
`_compute_output_shape` (lines 86-89 of `funcs.py`): append each axis
size to the intermediate shape and record its position. -/
def cosSourceAxes (shape_dict : Dict) :
    List String → List Nat → Dict → Nat → Except PyError (List Nat × Dict × Nat)
  | [], intermediate, spos, current_dim => .ok (intermediate, spos, current_dim)
  | axis :: axes, intermediate, spos, current_dim =>
    match pyDictGetKE shape_dict axis with
    | .error e => .error e
    | .ok sz =>
      cosSourceAxes shape_dict axes (intermediate ++ [sz]) (dictSet spos axis current_dim)
        (current_dim + 1)

/-- Pass 1 of `_compute_output_shape` (lines 79-95 of `funcs.py`):
flatten the source composition into the intermediate shape, record each
axis position, and record the ellipsis position range.  As in `gsdGo`,
`full` is the whole source composition.  `current_dim` is assigned
`ellipsis_end`, which is non-negative whenever `_get_shape_dict` has
succeeded on the same composition and shape (the only way the source
reaches this code). -/
def cosSource (shape : List Nat) (full : List CompElem) (shape_dict : Dict) :
    List CompElem → List Nat → Dict → Option (List Nat) → Nat →
    Except PyError (List Nat × Dict × Option (List Nat))
  | [], intermediate, spos, edims, _ => .ok (intermediate, spos, edims)
  | .group item :: rest, intermediate, spos, edims, current_dim =>
    match item with
    | [axis] =>
      match pyDictGetKE shape_dict axis with
      | .error e => .error e
      | .ok sz =>
        cosSource shape full shape_dict rest (intermediate ++ [sz]) (dictSet spos axis current_dim)
          edims (current_dim + 1)
    | _ =>
      match cosSourceAxes shape_dict item intermediate spos current_dim with
      | .error e => .error e
      | .ok (intermediate1, spos1, current_dim1) =>
        cosSource shape full shape_dict rest intermediate1 spos1 edims current_dim1
  | .ellipsis :: rest, intermediate, spos, _, current_dim =>
    let ellipsis_start := current_dim
    let ellipsis_end : Int := (shape.length : Int) - countGroups (afterFirstEllipsis full)
    let dims := pyRangeList ellipsis_start ellipsis_end
    cosSource shape full shape_dict rest (intermediate ++ pySlice shape ellipsis_start ellipsis_end)
      spos (some dims) ellipsis_end.toNat

/-- Evaluation of the generator `(shape_dict[axis] for axis in item)`:
look up every name, propagating the first `KeyError`. -/
def lookupAll (d : Dict) : List String → Except PyError (List Nat)
  | [] => .ok []
  | a :: rest =>
    match dictGet d a with
    | none => .error (.keyError a)
    | some v =>
      match lookupAll d rest with
      | .error e => .error e
      | .ok vs => .ok (v :: vs)

/-- Evaluation of `(tensor.shape[d] for d in ellipsis_dims)`: index every
position, propagating the first `IndexError`. -/
def indexAll (shape : List Nat) : List Nat → Except PyError (List Nat)
  | [] => .ok []
  | i :: rest =>
    match pyIndex shape i with
    | .error e => .error e
    | .ok v =>
      match indexAll shape rest with
      | .error e => .error e
      | .ok vs => .ok (v :: vs)

/-- Pass 2 of `_compute_output_shape` (lines 98-112 of `funcs.py`):
build the final shape and the permutation from the target composition.
When the target contains an ellipsis but pass 1 recorded none, the
source reads the never-assigned local `ellipsis_dims`, raising
`UnboundLocalError` (a `NameError`). -/
def cosTarget (shape : List Nat) (shape_dict : Dict) (spos : Dict) (edims : Option (List Nat)) :
    List CompElem → List Nat → List Nat → Except PyError (List Nat × List Nat)
  | [], final_shape, permutation => .ok (final_shape, permutation)
  | .group item :: rest, final_shape, permutation =>
    match item with
    | [axis] =>
      if ¬ dictMem shape_dict axis then .error (.einops ("Unknown dimension: " ++ axis))
      else
        match pyDictGetKE spos axis with
        | .error e => .error e
        | .ok p =>
          cosTarget shape shape_dict spos edims rest
            (final_shape ++ [(dictGet shape_dict axis).getD 0]) (permutation ++ [p])
    | _ =>
      match lookupAll shape_dict item with
      | .error e => .error e
      | .ok sizes =>
        match lookupAll spos item with
        | .error e => .error e
        | .ok ps =>
          cosTarget shape shape_dict spos edims rest (final_shape ++ [npProd sizes])
            (permutation ++ ps)
  | .ellipsis :: rest, final_shape, permutation =>
    match edims with
    | none => .error .nameError
    | some dims =>
      match indexAll shape dims with
      | .error e => .error e
      | .ok szs =>
        cosTarget shape shape_dict spos edims rest (final_shape ++ szs) (permutation ++ dims)

/-- Function `_compute_output_shape` of `funcs.py`: the two passes plus
the defensive element-count equality check (lines 114-116). -/
def _compute_output_shape (tensor : Tensor) (target_parsed source_parsed : ParsedExpression)
    (shape_dict : Dict) : Except PyError (List Nat × List Nat × List Nat) :=
  match cosSource tensor.shape source_parsed.composition shape_dict source_parsed.composition
      [] [] none 0 with
  | .error e => .error e
  | .ok (intermediate_shape, source_positions, edims) =>
    match cosTarget tensor.shape shape_dict source_positions edims target_parsed.composition
        [] [] with
    | .error e => .error e
    | .ok (final_shape, permutation) =>
      if npProd intermediate_shape ≠ npProd final_shape then
        .error (.einops ("Cannot reshape array of size " ++ toString (npProd intermediate_shape) ++
          " into shape " ++ pyReprNatTuple final_shape))
      else .ok (intermediate_shape, final_shape, permutation)

/-- Dimension-count validation of `rearrange` (lines 137-145 of
`funcs.py`), with the adjustment `source_dims += len(tensor.shape) -
source_dims` applied when the source half has an ellipsis; the
arithmetic is over Python ints, modelled by `Int`. -/
def dimCheck (source_parsed : ParsedExpression) (rank : Nat) : Except PyError Unit :=
  let source_dims : Int := source_parsed.actual_dim_count
  let source_dims :=
    if source_parsed.has_ellipsis then source_dims + ((rank : Int) - source_dims) else source_dims
  if source_dims ≠ (rank : Int) then
    if source_dims < (rank : Int) then .error (.einops "Pattern requires fewer dimensions")
    else .error (.einops "Pattern requires more dimensions")
  else .ok ()

/-- Identifier-consistency check of `rearrange` (lines 153-157 of
`funcs.py`): the target identifiers minus the source identifiers (after
discarding a literal `"..."`, which the identifier sets never contain)
must be empty.  The joined message lists the offending names; CPython
iterates the set in hash order, here insertion order. -/
def idCheck (source_parsed target_parsed : ParsedExpression) : Except PyError Unit :=
  let target_identifiers := target_parsed.identifiers.filter (fun x => x ≠ "...")
  let source_identifiers := source_parsed.identifiers.filter (fun x => x ≠ "...")
  let unknown_dims := target_identifiers.filter (fun x => ¬ source_identifiers.contains x)
  if unknown_dims ≠ [] then
    .error (.einops ("Unknown dimension(s): " ++ String.intercalate ", " unknown_dims))
  else .ok ()

/-- Steps 7-8 of the executor (lines 166-171 of `funcs.py`): identity
permutations reshape directly, otherwise reshape-transpose-reshape; a
`ValueError` from the collaborator is wrapped into an `EinopsError`. -/
def executeRearrange (tensor : Tensor) (intermediate_shape final_shape permutation : List Nat) :
    Except PyError Tensor :=
  let res :=
    if permutation = List.range permutation.length then tensor.reshape final_shape
    else
      match tensor.reshape intermediate_shape with
      | .error e => .error e
      | .ok r1 =>
        match r1.transpose permutation with
        | .error e => .error e
        | .ok r2 => r2.reshape final_shape
  match res with
  | .error (.valueError m) => .error (.einops ("Shape Mismatch: " ++ m))
  | other => other

/-- Function `rearrange` of `funcs.py` (lines 120-171).  `named_sizes`
is the keyword-argument dict.  `pattern.split("->")` unpacked into two
variables raises `ValueError` unless it yields exactly two parts; only
the two-part arm is reachable together with the containment check. -/
def rearrange (tensor : Tensor) (pattern : String) (named_sizes : Dict) : Except PyError Tensor :=
  if (pySplitArrow pattern.toList).length = 1 then
    .error (.einops ("Pattern must contain " ++ sq "->"))
  else
    match pySplitArrow pattern.toList with
    | [source, target] =>
      match ParsedExpression.parse (String.mk (pyStrip source)) with
      | .error e => .error (.einops e)
      | .ok source_parsed =>
        match ParsedExpression.parse (String.mk (pyStrip target)) with
        | .error e => .error (.einops e)
        | .ok target_parsed =>
          match dimCheck source_parsed tensor.shape.length with
          | .error e => .error e
          | .ok _ =>
            match _get_shape_dict tensor source_parsed named_sizes with
            | .error (.valueError m) => .error (.einops ("Cannot infer sizes: " ++ m))
            | .error e => .error e
            | .ok shape_dict =>
              match idCheck source_parsed target_parsed with
              | .error e => .error e
              | .ok _ =>
                match _compute_output_shape tensor target_parsed source_parsed shape_dict with
                | .error (.keyError k) => .error (.einops ("Unknown dimension: " ++ sq k))
                | .error e => .error e
                | .ok (intermediate_shape, final_shape, permutation) =>
                  executeRearrange tensor intermediate_shape final_shape permutation
    | _ => .error (.valueError "too many values to unpack (expected 2)")

/-- Observable outcome class of a call: the call returned an array, or
it raised the library's own `EinopsError`; false means an exception of
some other type propagated to the caller. -/
def okOrEinops : Except PyError Tensor → Bool
  | .ok _ => true
  | .error (.einops _) => true
  | .error _ => false

/-- Axis names appearing in the groups of a composition, in order. -/
def compAxes : List CompElem → List String
  | [] => []
  | .group g :: rest => g ++ compAxes rest
  | .ellipsis :: rest => compAxes rest

/-- Two dicts that agree at every key other than `z`. -/
def agreeExcept (z : String) (d1 d2 : Dict) : Prop :=
  ∀ k, k ≠ z → dictGet d1 k = dictGet d2 k

/-- Relation between two fallible dict computations: same error, or
success with dicts agreeing off `z`. -/
def exceptDictAgree (z : String) : Except PyError Dict → Except PyError Dict → Prop
  | .ok d1, .ok d2 => agreeExcept z d1 d2
  | .error e1, .error e2 => e1 = e2
  | _, _ => False

/-- C3, counterexample: a pattern with two `->` separators does not
raise the library's `EinopsError` (the spec's `PatternSyntaxError`); the
tuple unpacking of `pattern.split("->")` raises a bare `ValueError`. -/
theorem double_arrow_raises_bare_value_error :
    rearrange ⟨[2, 3, 4], List.replicate 24 0⟩ "a -> b -> c" [] =
      .error (.valueError "too many values to unpack (expected 2)") ∧
    okOrEinops (rearrange ⟨[2, 3, 4], List.replicate 24 0⟩ "a -> b -> c" []) = false :=
  ⟨rfl, rfl⟩

/-- C3 (amended): a pattern without `->` raises the `EinopsError`
"Pattern must contain '->'"; a pattern in which `->` occurs two or more
times (split into three or more parts) raises the unpacking `ValueError`
rather than an `EinopsError`. -/
theorem rearrange_arrow_separator_errors (tensor : Tensor) (named_sizes : Dict)
    (pattern : String) :
    ((pySplitArrow pattern.toList).length = 1 →
      rearrange tensor pattern named_sizes =
        .error (.einops ("Pattern must contain " ++ sq "->"))) ∧
    (3 ≤ (pySplitArrow pattern.toList).length →
      rearrange tensor pattern named_sizes =
        .error (.valueError "too many values to unpack (expected 2)")) := by
  constructor
  · intro h
    unfold rearrange
    rw [if_pos h]
  · intro h
    unfold rearrange
    rw [if_neg (by omega)]
    rcases hp : pySplitArrow pattern.toList with _ | ⟨a, _ | ⟨b, _ | ⟨c, rest⟩⟩⟩
    · rfl
    · rfl
    · rw [hp] at h; simp at h
    · rfl

/-- Witness for `rearrange_arrow_separator_errors` at concrete inputs. -/
theorem rearrange_arrow_separator_errors_witness :
    ((pySplitArrow "a b c".toList).length = 1 ∧
      rearrange ⟨[2, 3, 4], List.replicate 24 0⟩ "a b c" [] =
        .error (.einops ("Pattern must contain " ++ sq "->"))) ∧
    (3 ≤ (pySplitArrow "x -> y -> z".toList).length ∧
      rearrange ⟨[2], [5, 6]⟩ "x -> y -> z" [] =
        .error (.valueError "too many values to unpack (expected 2)")) :=
  ⟨⟨rfl, (rearrange_arrow_separator_errors ⟨[2, 3, 4], List.replicate 24 0⟩ [] "a b c").1 rfl⟩,
   ⟨by decide, (rearrange_arrow_separator_errors ⟨[2], [5, 6]⟩ [] "x -> y -> z").2 (by decide)⟩⟩

/-- C2, counterexample: a source pattern with an ellipsis and more named
groups than the array's rank does not raise the dimension-count
`EinopsError`; the call instead reaches `_get_shape_dict`, whose
`tensor.shape[current_dim]` read raises an uncaught `IndexError`. -/
theorem ellipsis_excess_groups_miss_dim_check :
    rearrange ⟨[5], List.replicate 5 0⟩ "p q ... -> p q" [] = .error .indexError ∧
    okOrEinops (rearrange ⟨[5], List.replicate 5 0⟩ "p q ... -> p q" []) = false :=
  ⟨rfl, rfl⟩

/-- C2 (amended): when the source half has an ellipsis, the effective
source dimension count is `actual_dim_count + (rank - actual_dim_count)
= rank`, so the dimension-count check always passes; the exact-equality
requirement and the fewer/more messages apply only to ellipsis-free
patterns.  For an ellipsis pattern with excess named groups the failure
surfaces later: as the shape resolver's "Pattern has more dimensions
than tensor" error when the ellipsis precedes the excess groups, or as
an uncaught `IndexError` when the excess groups precede the ellipsis. -/
theorem dim_count_check_vacuous_with_ellipsis :
    (∀ (sp : ParsedExpression) (rank : Nat), sp.has_ellipsis = true →
      dimCheck sp rank = .ok ()) ∧
    (∀ (sp : ParsedExpression) (rank : Nat), sp.has_ellipsis = false →
      (sp.actual_dim_count = rank → dimCheck sp rank = .ok ()) ∧
      (sp.actual_dim_count < rank →
        dimCheck sp rank = .error (.einops "Pattern requires fewer dimensions")) ∧
      (rank < sp.actual_dim_count →
        dimCheck sp rank = .error (.einops "Pattern requires more dimensions"))) ∧
    rearrange ⟨[7], List.replicate 7 0⟩ "x y ... -> x y" [] = .error .indexError ∧
    rearrange ⟨[7], List.replicate 7 0⟩ "... x y -> x y" [] =
      .error (.einops "Pattern has more dimensions than tensor") := by
  refine ⟨?_, ?_, rfl, rfl⟩
  · intro sp rank he
    have h1 : ((sp.actual_dim_count : Int) + ((rank : Int) - (sp.actual_dim_count : Int))) =
        (rank : Int) := by ring
    simp [dimCheck, he, h1]
  · intro sp rank he
    refine ⟨?_, ?_, ?_⟩ <;> intro h
    · simp [dimCheck, he, h]
    · have hne : ¬ ((sp.actual_dim_count : Int) = (rank : Int)) := by omega
      have hlt : (sp.actual_dim_count : Int) < (rank : Int) := by omega
      simp [dimCheck, he, hne, hlt]
    · have hne : ¬ ((sp.actual_dim_count : Int) = (rank : Int)) := by omega
      have hnlt : ¬ ((sp.actual_dim_count : Int) < (rank : Int)) := by omega
      simp [dimCheck, he, hne, hnlt]

/-- Witness for `dim_count_check_vacuous_with_ellipsis` at concrete
inputs. -/
theorem dim_count_check_vacuous_with_ellipsis_witness :
    dimCheck ⟨true, ["x", "y"], [.group ["x"], .group ["y"], .ellipsis], 3⟩ 1 = .ok () ∧
    dimCheck ⟨false, ["x"], [.group ["x"]], 1⟩ 3 =
      .error (.einops "Pattern requires fewer dimensions") :=
  ⟨dim_count_check_vacuous_with_ellipsis.1 _ 1 rfl,
   (dim_count_check_vacuous_with_ellipsis.2.1 _ 3 rfl).2.1 (by decide)⟩

/-- C4, counterexample: the pattern "a\tb" (tab-separated) does not
parse like "a b"; the tab passes the character-validity test but is not
a delimiter, so the token becomes the invalid axis name "a\tb" and
parsing raises an `EinopsError`. -/
theorem tab_separated_pattern_rejected :
    ParsedExpression.parse "a\tb" = .error ("Invalid axis name: a\tb") ∧
    ParsedExpression.parse "a b" =
      .ok ⟨false, ["a", "b"], [.group ["a"], .group ["b"]], 2⟩ :=
  ⟨rfl, rfl⟩

/-- C4 (amended): the tokenizer's delimiters are `(`, `)` and the space
character only; any other whitespace character passes the
character-validity check but accumulates into the current identifier
token, which is then rejected as an invalid axis name, while parentheses
and runs of spaces delimit as the claim describes. -/
theorem tokenizer_space_paren_delimiters :
    ParsedExpression.parse "a\tb" = .error ("Invalid axis name: a\tb") ∧
    ParsedExpression.parse "a\nb" = .error ("Invalid axis name: a\nb") ∧
    ParsedExpression.parse "a(b c)d" = ParsedExpression.parse "a (b c) d" ∧
    ParsedExpression.parse "a  b   c" = ParsedExpression.parse "a b c" :=
  ⟨rfl, rfl, rfl, rfl⟩

/-- C5, counterexample: a successful call whose permutation is shorter
than the intermediate shape.  For the array of shape `(2, 1)` and
pattern "a b -> a", the output planner returns intermediate shape
`[2, 1]` with permutation `[0]`, which has length 1 ≠ 2 and is not a
bijection onto the intermediate positions, yet the call succeeds via the
identity-permutation shortcut. -/
theorem dropped_axis_short_permutation :
    ParsedExpression.parse "a b" =
      .ok ⟨false, ["a", "b"], [.group ["a"], .group ["b"]], 2⟩ ∧
    ParsedExpression.parse "a" = .ok ⟨false, ["a"], [.group ["a"]], 1⟩ ∧
    _get_shape_dict ⟨[2, 1], [3, 4]⟩ ⟨false, ["a", "b"], [.group ["a"], .group ["b"]], 2⟩ [] =
      .ok [("a", 2), ("b", 1)] ∧
    _compute_output_shape ⟨[2, 1], [3, 4]⟩ ⟨false, ["a"], [.group ["a"]], 1⟩
      ⟨false, ["a", "b"], [.group ["a"], .group ["b"]], 2⟩ [("a", 2), ("b", 1)] =
      .ok ([2, 1], [2], [0]) ∧
    rearrange ⟨[2, 1], [3, 4]⟩ "a b -> a" [] = .ok ⟨[2], [3, 4]⟩ ∧
    ([0] : List Nat).length ≠ ([2, 1] : List Nat).length ∧
    isPermutationList [0] ([2, 1] : List Nat).length = false :=
  ⟨rfl, rfl, rfl, rfl, rfl, by decide, rfl⟩

/-- C7: a multi-axis source group with exactly one axis of unknown size
and positive known product binds the unknown to the quotient when the
division is exact and raises the "cannot divide" error otherwise;
concretely, `rearrange(zeros(6,8), "(a b) c -> a b c", b=2)` has shape
`(3, 2, 8)` and omitting `b` raises the multiple-unknowns size-inference
error. -/
theorem single_unknown_split_inference :
    (∀ (shape : List Nat) (full rest : List CompElem) (shape_dict : Dict)
      (current_dim total_size kp : Nat) (a0 a1 : String) (axs : List String) (u : String),
      pyIndex shape current_dim = .ok total_size →
      (a0 :: a1 :: axs).filter (fun dim => ¬ dictMem shape_dict dim) = [u] →
      npProd (((a0 :: a1 :: axs).filter (fun dim => dictMem shape_dict dim)).map
        (fun dim => (dictGet shape_dict dim).getD 0)) = kp →
      0 < kp →
      (total_size % kp = 0 →
        gsdGo shape full (.group (a0 :: a1 :: axs) :: rest) shape_dict current_dim =
          gsdGo shape full rest (dictSet shape_dict u (total_size / kp)) (current_dim + 1)) ∧
      (total_size % kp ≠ 0 →
        gsdGo shape full (.group (a0 :: a1 :: axs) :: rest) shape_dict current_dim =
          .error (.einops ("Cannot divide dimension size " ++ toString total_size ++ " by " ++
            toString kp)))) ∧
    rearrange ⟨[6, 8], List.replicate 48 0⟩ "(a b) c -> a b c" [("b", 2)] =
      .ok ⟨[3, 2, 8], List.replicate 48 0⟩ ∧
    rearrange ⟨[6, 8], List.replicate 48 0⟩ "(a b) c -> a b c" [] =
      .error (.einops ("Cannot infer sizes for multiple unknown dimensions in " ++
        pyReprStrList ["a", "b"])) := by
  refine ⟨?_, rfl, rfl⟩
  intro shape full rest shape_dict current_dim total_size kp a0 a1 axs u hidx hunk hkp hpos
  have hne : kp ≠ 0 := Nat.pos_iff_ne_zero.mp hpos
  constructor <;> intro h
  · rw [gsdGo, hidx]
    simp only [hunk, hkp, npMod, npDiv, if_neg hne, h]
    simp
  · rw [gsdGo, hidx]
    simp only [hunk, hkp, npMod, npDiv, if_neg hne, if_pos h]

/-- Witness for `single_unknown_split_inference` at the concrete state
reached by `rearrange(zeros(6,8), "(a b) c -> a b c", b=2)`. -/
theorem single_unknown_split_inference_witness :
    gsdGo [6, 8] [.group ["a", "b"], .group ["c"]] [.group ["a", "b"], .group ["c"]]
      [("b", 2)] 0 =
      gsdGo [6, 8] [.group ["a", "b"], .group ["c"]] [.group ["c"]] [("b", 2), ("a", 3)] 1 :=
  (single_unknown_split_inference.1 [6, 8] [.group ["a", "b"], .group ["c"]] [.group ["c"]]
    [("b", 2)] 0 6 2 "a" "b" [] "a" rfl rfl rfl (by decide)).1 rfl

/-- C9: the identifier-consistency check is one-directional: it passes
exactly when every target identifier occurs among the source
identifiers, so a source axis absent from the target is never itself
rejected.  For shape `(2, 1)`, "a b -> a" succeeds and silently drops
the axis; for shape `(2, 2)` the same pattern fails only later, via the
element-count check of the output planner. -/
theorem identifier_check_one_directional :
    (∀ sp tp : ParsedExpression,
      idCheck sp tp = .ok () ↔ ∀ x ∈ tp.identifiers, x ≠ "..." → x ∈ sp.identifiers) ∧
    rearrange ⟨[2, 1], [5, 6]⟩ "a b -> a" [] = .ok ⟨[2], [5, 6]⟩ ∧
    rearrange ⟨[2, 2], [0, 1, 2, 3]⟩ "a b -> a" [] =
      .error (.einops ("Cannot reshape array of size 4 into shape " ++ pyReprNatTuple [2])) := by
  refine ⟨?_, rfl, rfl⟩
  intro sp tp
  have key : ((tp.identifiers.filter (fun x => x ≠ "...")).filter
      (fun x => ¬ (sp.identifiers.filter (fun x => x ≠ "...")).contains x) = []) ↔
      (∀ x ∈ tp.identifiers, x ≠ "..." → x ∈ sp.identifiers) := by
    rw [List.filter_eq_nil_iff]
    constructor
    · intro h x hx hne
      have := h x (List.mem_filter.mpr ⟨hx, by simp [hne]⟩)
      simp at this
      exact this.1
    · intro h x hx
      have hx1 := List.mem_filter.mp hx
      have hne : x ≠ "..." := by simpa using hx1.2
      simp [List.mem_filter, hne]
      exact h x hx1.1 hne
  by_cases hc : ((tp.identifiers.filter (fun x => x ≠ "...")).filter
      (fun x => ¬ (sp.identifiers.filter (fun x => x ≠ "...")).contains x) = [])
  · rw [← key]
    simp [idCheck, hc]
  · rw [← key]
    simp [idCheck, hc]

/-- Witness for `identifier_check_one_directional` at a concrete pair
of parsed halves: source "a b", target "a". -/
theorem identifier_check_one_directional_witness :
    idCheck ⟨false, ["a", "b"], [.group ["a"], .group ["b"]], 2⟩
      ⟨false, ["a"], [.group ["a"]], 1⟩ = .ok () :=
  (identifier_check_one_directional.1 _ _).mpr (by decide)

/-- C10, counterexample: supplying 0 for a known axis of a multi-axis
source group does not raise `ZeroDivisionError`: the modulo is taken
against a numpy int64 zero, which yields 0 with a RuntimeWarning, so the
unknown axis is bound to 0 and the call fails later with the wrapped
`EinopsError` from the rejected reshape. -/
theorem zero_size_hint_raises_no_zero_division :
    rearrange ⟨[6, 8], List.replicate 48 0⟩ "(a b) c -> a b c" [("a", 0)] =
      .error (.einops ("Shape Mismatch: " ++ npReshapeErrMsg 48 [0, 0, 8])) ∧
    okOrEinops (rearrange ⟨[6, 8], List.replicate 48 0⟩ "(a b) c -> a b c" [("a", 0)]) =
      true :=
  ⟨rfl, rfl⟩

/-- C10 (amended): named-size values are indeed never validated to be
positive, and a zero size does reach the modulo with a zero known
product; but that numpy operation evaluates to 0 with a RuntimeWarning
instead of raising, so the unknown is bound to 0 and the call fails
later with the `EinopsError` "Shape Mismatch: cannot reshape ..." when
the reshape is rejected; no `ZeroDivisionError` propagates. -/
theorem zero_known_product_binds_zero :
    (∀ (shape : List Nat) (full rest : List CompElem) (shape_dict : Dict)
      (current_dim total_size : Nat) (a0 a1 : String) (axs : List String) (u : String),
      pyIndex shape current_dim = .ok total_size →
      (a0 :: a1 :: axs).filter (fun dim => ¬ dictMem shape_dict dim) = [u] →
      npProd (((a0 :: a1 :: axs).filter (fun dim => dictMem shape_dict dim)).map
        (fun dim => (dictGet shape_dict dim).getD 0)) = 0 →
      gsdGo shape full (.group (a0 :: a1 :: axs) :: rest) shape_dict current_dim =
        gsdGo shape full rest (dictSet shape_dict u 0) (current_dim + 1)) ∧
    ParsedExpression.parse "(a b) c" =
      .ok ⟨false, ["a", "b", "c"], [.group ["a", "b"], .group ["c"]], 2⟩ ∧
    _get_shape_dict ⟨[6, 8], List.replicate 48 0⟩
      ⟨false, ["a", "b", "c"], [.group ["a", "b"], .group ["c"]], 2⟩ [("a", 0)] =
      .ok [("a", 0), ("b", 0), ("c", 8)] ∧
    rearrange ⟨[6, 8], List.replicate 48 0⟩ "(a b) c -> a b c" [("a", 0)] =
      .error (.einops ("Shape Mismatch: " ++ npReshapeErrMsg 48 [0, 0, 8])) := by
  refine ⟨?_, rfl, rfl, rfl⟩
  intro shape full rest shape_dict current_dim total_size a0 a1 axs u hidx hunk hkp
  rw [gsdGo, hidx]
  simp only [hunk, hkp, npMod, npDiv, if_pos rfl]
  simp

/-- Witness for `zero_known_product_binds_zero` at the concrete state
reached by the zero-size call. -/
theorem zero_known_product_binds_zero_witness :
    gsdGo [6, 8] [.group ["a", "b"], .group ["c"]] [.group ["a", "b"], .group ["c"]]
      [("a", 0)] 0 =
      gsdGo [6, 8] [.group ["a", "b"], .group ["c"]] [.group ["c"]] [("a", 0), ("b", 0)] 1 :=
  zero_known_product_binds_zero.1 [6, 8] [.group ["a", "b"], .group ["c"]] [.group ["c"]]
    [("a", 0)] 0 6 "a" "b" [] "b" rfl rfl rfl

/-- Case analysis of one `add_axis_name` success: ellipsis appended at
top level, name appended to an open group, or name appended as a
singleton group at top level. -/
theorem add_axis_name_cases (comp : List CompElem) (ids : List String)
    (bg : Option (List String)) (name : String) (comp1 : List CompElem) (ids1 : List String)
    (bg1 : Option (List String))
    (h : add_axis_name comp ids bg name = .ok (comp1, ids1, bg1)) :
    (comp1 = comp ++ [.ellipsis] ∧ ids1 = ids ∧ bg1 = none ∧ bg = none) ∨
    (∃ g, bg = some g ∧ comp1 = comp ∧ ids1 = addIfNew ids name ∧ bg1 = some (g ++ [name])) ∨
    (bg = none ∧ comp1 = comp ++ [.group [name]] ∧ ids1 = addIfNew ids name ∧ bg1 = none) := by
  unfold add_axis_name at h
  split at h
  · cases bg with
    | some g => simp at h
    | none =>
      simp at h
      exact Or.inl ⟨h.1.symm, h.2.1.symm, h.2.2.symm, rfl⟩
  · split at h
    · simp at h
    · split at h
      · simp at h
      · split at h
        · simp at h
        · cases bg with
          | some g =>
            simp at h
            exact Or.inr (Or.inl ⟨g, rfl, h.1.symm, h.2.1.symm, h.2.2.symm⟩)
          | none =>
            simp at h
            exact Or.inr (Or.inr ⟨rfl, h.1.symm, h.2.1.symm, h.2.2.symm⟩)

/-- Invariant of the token-processing loop: the dimension counter
tracks the length of the composition (each top-level singleton, closed
group, and top-level ellipsis contributes one element and one
increment). -/
theorem processTokens_len (toks : List String) :
    ∀ (comp : List CompElem) (ids : List String) (adc : Nat) (bg : Option (List String))
      (comp1 : List CompElem) (ids1 : List String) (adc1 : Nat),
      processTokens toks comp ids adc bg = .ok (comp1, ids1, adc1) →
      adc = comp.length → adc1 = comp1.length := by
  induction toks with
  | nil =>
    intro comp ids adc bg comp1 ids1 adc1 h hinv
    unfold processTokens at h
    cases bg with
    | some g => simp at h
    | none =>
      simp at h
      obtain ⟨h1, h2, h3⟩ := h
      subst h1
      subst h3
      exact hinv
  | cons tok rest ih =>
    intro comp ids adc bg comp1 ids1 adc1 h hinv
    unfold processTokens at h
    split at h
    · cases bg with
      | some g => simp at h
      | none => exact ih comp ids adc (some []) comp1 ids1 adc1 h hinv
    · split at h
      · cases bg with
        | none => simp at h
        | some g =>
          cases g with
          | nil => simp at h
          | cons a gs =>
            refine ih _ _ _ _ _ _ _ h ?_
            simp [hinv]
      · rcases han : add_axis_name comp ids bg tok with e | ⟨c2, i2, b2⟩
        · rw [han] at h; simp at h
        · rw [han] at h
          simp only [] at h
          rcases add_axis_name_cases comp ids bg tok c2 i2 b2 han with
            ⟨hc, hi, hb, hbg⟩ | ⟨g, hbg, hc, hi, hb⟩ | ⟨hbg, hc, hi, hb⟩
          · subst hc; subst hb
            refine ih _ _ _ _ _ _ _ h ?_
            simp [hinv]
          · subst hc; subst hb
            refine ih _ _ _ _ _ _ _ h ?_
            simpa using hinv
          · subst hc; subst hb
            refine ih _ _ _ _ _ _ _ h ?_
            simp [hinv]

/-- Parser invariant: a successfully parsed expression has
`actual_dim_count` equal to the length of its composition. -/
theorem parse_adc (e : String) (pe : ParsedExpression)
    (h : ParsedExpression.parse e = .ok pe) :
    pe.actual_dim_count = pe.composition.length := by
  unfold ParsedExpression.parse at h
  split at h
  · simp at h
  · split at h
    · simp at h
    · simp only [] at h
      rcases htk : tokenizeGo (if decide (countTriple e.toList > 0) = true then
        replaceTriple e.toList else e.toList) "" [] with e1 | toks
      · rw [htk] at h; simp at h
      · rw [htk] at h
        simp only [] at h
        rcases hpt : processTokens toks [] [] 0 none with e2 | ⟨comp, ids, adc⟩
        · rw [hpt] at h; simp at h
        · rw [hpt] at h
          simp at h
          have := processTokens_len toks [] [] 0 none comp ids adc hpt rfl
          rw [← h]
          exact this

/-- Python list indexing succeeds below the length, returning the
element. -/
theorem pyIndex_lt (l : List Nat) (i : Nat) (h : i < l.length) :
    pyIndex l i = .ok (l.getD i 0) := by
  unfold pyIndex
  rw [dif_pos h, List.getD_eq_getElem _ _ h]

/-- On an ellipsis-free composition whose groups fit within the rank,
the shape resolver loop returns a dict or raises an `EinopsError`; its
shape reads stay in bounds, so no `IndexError` arises. -/
theorem gsdGo_no_ellipsis_classify (shape : List Nat) (full : List CompElem) :
    ∀ (comp : List CompElem) (shape_dict : Dict) (current_dim : Nat),
      CompElem.ellipsis ∉ comp →
      current_dim + comp.length ≤ shape.length →
      (∃ d, gsdGo shape full comp shape_dict current_dim = .ok d) ∨
      (∃ m, gsdGo shape full comp shape_dict current_dim = .error (.einops m)) := by
  intro comp
  induction comp with
  | nil =>
    intro shape_dict current_dim hne hb
    exact Or.inl ⟨shape_dict, rfl⟩
  | cons el rest ih =>
    intro shape_dict current_dim hne hb
    have hner : CompElem.ellipsis ∉ rest := by
      intro hx; exact hne (List.mem_cons_of_mem _ hx)
    cases el with
    | ellipsis => exact absurd (List.mem_cons_self _ _) hne
    | group item =>
      rw [gsdGo, pyIndex_lt shape current_dim (by simp at hb; omega)]
      simp only []
      rcases item with _ | ⟨a, _ | ⟨b, t⟩⟩
      · rcases hu : ([] : List String).filter (fun dim => ¬ dictMem shape_dict dim) with
          _ | ⟨u, us⟩
        · simp only [hu]
          split
          · exact Or.inr ⟨_, rfl⟩
          · exact ih _ _ hner (by simp at hb ⊢; omega)
        · simp at hu
      · rcases hg : dictGet shape_dict a with _ | v
        · simp only [hg]
          exact ih _ _ hner (by simp at hb ⊢; omega)
        · simp only [hg]
          split
          · exact Or.inr ⟨_, rfl⟩
          · exact ih _ _ hner (by simp at hb ⊢; omega)
      · rcases hu : (a :: b :: t).filter (fun dim => ¬ dictMem shape_dict dim) with
          _ | ⟨u, _ | ⟨u2, us⟩⟩
        · simp only [hu]
          split
          · exact Or.inr ⟨_, rfl⟩
          · exact ih _ _ hner (by simp at hb ⊢; omega)
        · simp only [hu]
          split
          · exact Or.inr ⟨_, rfl⟩
          · exact ih _ _ hner (by simp at hb ⊢; omega)
        · simp only [hu]
          exact Or.inr ⟨_, rfl⟩

/-- The inner source-group walk returns a triple or raises `KeyError`. -/
theorem cosSourceAxes_classify (shape_dict : Dict) :
    ∀ (axes : List String) (ish : List Nat) (spos : Dict) (cd : Nat),
      (∃ t, cosSourceAxes shape_dict axes ish spos cd = .ok t) ∨
      (∃ k, cosSourceAxes shape_dict axes ish spos cd = .error (.keyError k)) := by
  intro axes
  induction axes with
  | nil => intro ish spos cd; exact Or.inl ⟨_, rfl⟩
  | cons a t ih =>
    intro ish spos cd
    rw [cosSourceAxes]
    unfold pyDictGetKE
    rcases hg : dictGet shape_dict a with _ | v
    · exact Or.inr ⟨a, rfl⟩
    · simp only []
      exact ih _ _ _

/-- On an ellipsis-free source composition, pass 1 of the output
planner returns a triple or raises `KeyError`. -/
theorem cosSource_classify (shape : List Nat) (full : List CompElem) (shape_dict : Dict) :
    ∀ (comp : List CompElem) (ish : List Nat) (spos : Dict) (edims : Option (List Nat))
      (cd : Nat),
      CompElem.ellipsis ∉ comp →
      (∃ t, cosSource shape full shape_dict comp ish spos edims cd = .ok t) ∨
      (∃ k, cosSource shape full shape_dict comp ish spos edims cd = .error (.keyError k)) := by
  intro comp
  induction comp with
  | nil => intro ish spos edims cd hne; exact Or.inl ⟨_, rfl⟩
  | cons el rest ih =>
    intro ish spos edims cd hne
    have hner : CompElem.ellipsis ∉ rest := by
      intro hx; exact hne (List.mem_cons_of_mem _ hx)
    cases el with
    | ellipsis => exact absurd (List.mem_cons_self _ _) hne
    | group item =>
      rcases item with _ | ⟨a, _ | ⟨b, t⟩⟩
      · simp only [cosSource]
        rcases cosSourceAxes_classify shape_dict [] ish spos cd with ⟨⟨i2, s2, c2⟩, ht⟩ | ⟨k, ht⟩
        · rw [ht]; exact ih _ _ _ _ hner
        · rw [ht]; exact Or.inr ⟨k, rfl⟩
      · simp only [cosSource]
        unfold pyDictGetKE
        rcases hg : dictGet shape_dict a with _ | v
        · exact Or.inr ⟨a, rfl⟩
        · simp only []
          exact ih _ _ _ _ hner
      · simp only [cosSource]
        rcases cosSourceAxes_classify shape_dict (a :: b :: t) ish spos cd with
          ⟨⟨i2, s2, c2⟩, ht⟩ | ⟨k, ht⟩
        · rw [ht]; exact ih _ _ _ _ hner
        · rw [ht]; exact Or.inr ⟨k, rfl⟩

/-- Looking up a list of names returns their values or raises
`KeyError`. -/
theorem lookupAll_classify (d : Dict) :
    ∀ (axes : List String),
      (∃ t, lookupAll d axes = .ok t) ∨ (∃ k, lookupAll d axes = .error (.keyError k)) := by
  intro axes
  induction axes with
  | nil => exact Or.inl ⟨[], rfl⟩
  | cons a t ih =>
    rw [lookupAll]
    rcases hg : dictGet d a with _ | v
    · exact Or.inr ⟨a, rfl⟩
    · rcases ih with ⟨l, hl⟩ | ⟨k, hk⟩
      · rw [hl]
        exact Or.inl ⟨v :: l, rfl⟩
      · rw [hk]
        exact Or.inr ⟨k, rfl⟩

/-- On an ellipsis-free target composition, pass 2 of the output
planner returns a pair, raises `EinopsError`, or raises `KeyError`; the
unbound-local `NameError` arm is never reached. -/
theorem cosTarget_classify (shape : List Nat) (shape_dict spos : Dict)
    (edims : Option (List Nat)) :
    ∀ (comp : List CompElem) (fsh perm : List Nat),
      CompElem.ellipsis ∉ comp →
      (∃ t, cosTarget shape shape_dict spos edims comp fsh perm = .ok t) ∨
      (∃ m, cosTarget shape shape_dict spos edims comp fsh perm = .error (.einops m)) ∨
      (∃ k, cosTarget shape shape_dict spos edims comp fsh perm = .error (.keyError k)) := by
  intro comp
  induction comp with
  | nil => intro fsh perm hne; exact Or.inl ⟨_, rfl⟩
  | cons el rest ih =>
    intro fsh perm hne
    have hner : CompElem.ellipsis ∉ rest := by
      intro hx; exact hne (List.mem_cons_of_mem _ hx)
    cases el with
    | ellipsis => exact absurd (List.mem_cons_self _ _) hne
    | group item =>
      rcases item with _ | ⟨a, _ | ⟨b, t⟩⟩
      · simp only [cosTarget]
        rcases lookupAll_classify shape_dict [] with ⟨l, hl⟩ | ⟨k, hk⟩
        · rw [hl]
          rcases lookupAll_classify spos [] with ⟨l2, hl2⟩ | ⟨k2, hk2⟩
          · rw [hl2]; exact ih _ _ hner
          · rw [hk2]; exact Or.inr (Or.inr ⟨k2, rfl⟩)
        · rw [hk]; exact Or.inr (Or.inr ⟨k, rfl⟩)
      · simp only [cosTarget]
        split
        · exact Or.inr (Or.inl ⟨_, rfl⟩)
        · unfold pyDictGetKE
          rcases hg : dictGet spos a with _ | p
          · exact Or.inr (Or.inr ⟨a, rfl⟩)
          · simp only []
            exact ih _ _ hner
      · simp only [cosTarget]
        rcases lookupAll_classify shape_dict (a :: b :: t) with ⟨l, hl⟩ | ⟨k, hk⟩
        · rw [hl]
          rcases lookupAll_classify spos (a :: b :: t) with ⟨l2, hl2⟩ | ⟨k2, hk2⟩
          · rw [hl2]; exact ih _ _ hner
          · rw [hk2]; exact Or.inr (Or.inr ⟨k2, rfl⟩)
        · rw [hk]; exact Or.inr (Or.inr ⟨k, rfl⟩)

/-- The dimension-count check returns unit or raises `EinopsError`. -/
theorem dimCheck_classify (sp : ParsedExpression) (n : Nat) :
    dimCheck sp n = .ok () ∨ ∃ m, dimCheck sp n = .error (.einops m) := by
  simp only [dimCheck]
  split <;> split
  · split
    · exact Or.inr ⟨_, rfl⟩
    · exact Or.inr ⟨_, rfl⟩
  · exact Or.inl rfl
  · split
    · exact Or.inr ⟨_, rfl⟩
    · exact Or.inr ⟨_, rfl⟩
  · exact Or.inl rfl

/-- The identifier check returns unit or raises `EinopsError`. -/
theorem idCheck_classify (sp tp : ParsedExpression) :
    idCheck sp tp = .ok () ∨ ∃ m, idCheck sp tp = .error (.einops m) := by
  simp only [idCheck]
  split
  · exact Or.inr ⟨_, rfl⟩
  · exact Or.inl rfl

/-- The reshape collaborator succeeds or raises `ValueError`. -/
theorem reshape_cases (t : Tensor) (s : List Nat) :
    Tensor.reshape t s = .ok ⟨s, t.data⟩ ∨
    Tensor.reshape t s = .error (.valueError (npReshapeErrMsg t.size s)) := by
  unfold Tensor.reshape
  split
  · exact Or.inl rfl
  · exact Or.inr rfl

/-- The transpose collaborator succeeds or raises `ValueError`. -/
theorem transpose_cases (t : Tensor) (p : List Nat) :
    Tensor.transpose t p = .ok ⟨permuteShape p t.shape, transposeData t.shape p t.data⟩ ∨
    Tensor.transpose t p = .error (.valueError "axes do not match array") := by
  unfold Tensor.transpose
  split
  · exact Or.inl rfl
  · exact Or.inr rfl

/-- The executor step either returns an array or raises `EinopsError`:
every collaborator `ValueError` is wrapped. -/
theorem executeRearrange_okOrEinops (t : Tensor) (i f p : List Nat) :
    okOrEinops (executeRearrange t i f p) = true := by
  unfold executeRearrange
  split
  · rcases reshape_cases t f with h | h <;> rw [h] <;> rfl
  · rcases reshape_cases t i with h | h
    · rw [h]
      simp only []
      rcases transpose_cases ⟨i, t.data⟩ p with h2 | h2 <;> rw [h2]
      · simp only []
        rcases reshape_cases ⟨permuteShape p (Tensor.mk i t.data).shape,
            transposeData (Tensor.mk i t.data).shape p (Tensor.mk i t.data).data⟩ f with h3 | h3 <;>
          rw [h3] <;> rfl
      · rfl
    · rw [h]; rfl

/-- On ellipsis-free compositions, the output planner returns a triple,
raises `EinopsError`, or raises `KeyError`. -/
theorem cos_classify (tensor : Tensor) (tp sp : ParsedExpression) (dict : Dict)
    (hsne : CompElem.ellipsis ∉ sp.composition) (htne : CompElem.ellipsis ∉ tp.composition) :
    (∃ t, _compute_output_shape tensor tp sp dict = .ok t) ∨
    (∃ m, _compute_output_shape tensor tp sp dict = .error (.einops m)) ∨
    (∃ k, _compute_output_shape tensor tp sp dict = .error (.keyError k)) := by
  unfold _compute_output_shape
  rcases cosSource_classify tensor.shape sp.composition dict sp.composition [] [] none 0 hsne with
    ⟨⟨ish, spos, edims⟩, h1⟩ | ⟨k, h1⟩
  · rw [h1]
    simp only []
    rcases cosTarget_classify tensor.shape dict spos edims tp.composition [] [] htne with
      ⟨⟨fsh, perm⟩, h2⟩ | ⟨m, h2⟩ | ⟨k, h2⟩
    · rw [h2]
      simp only []
      split
      · exact Or.inr (Or.inl ⟨_, rfl⟩)
      · exact Or.inl ⟨_, rfl⟩
    · rw [h2]; exact Or.inr (Or.inl ⟨m, rfl⟩)
    · rw [h2]; exact Or.inr (Or.inr ⟨k, rfl⟩)
  · rw [h1]; exact Or.inr (Or.inr ⟨k, rfl⟩)

/-- Membership is preserved when a name is added to the identifier
set. -/
theorem addIfNew_mem (ids : List String) (n x : String) (h : x ∈ ids) : x ∈ addIfNew ids n := by
  unfold addIfNew
  split
  · exact h
  · exact List.mem_append_left _ h

/-- The added name is a member of the extended identifier set. -/
theorem addIfNew_self (ids : List String) (n : String) : n ∈ addIfNew ids n := by
  unfold addIfNew
  split
  · next hc => simpa using hc
  · simp

/-- Group axes distribute over composition concatenation. -/
theorem compAxes_append (l1 l2 : List CompElem) :
    compAxes (l1 ++ l2) = compAxes l1 ++ compAxes l2 := by
  induction l1 with
  | nil => rfl
  | cons el rest ih =>
    cases el with
    | group g => simp [compAxes, ih]
    | ellipsis => simp [compAxes, ih]

/-- Invariant of the token-processing loop: every axis name in the
composition (and in the open bracket group) has been added to the
identifier set. -/
theorem processTokens_axes (toks : List String) :
    ∀ (comp : List CompElem) (ids : List String) (adc : Nat) (bg : Option (List String))
      (comp1 : List CompElem) (ids1 : List String) (adc1 : Nat),
      processTokens toks comp ids adc bg = .ok (comp1, ids1, adc1) →
      (∀ x ∈ compAxes comp, x ∈ ids) →
      (∀ g, bg = some g → ∀ x ∈ g, x ∈ ids) →
      ∀ x ∈ compAxes comp1, x ∈ ids1 := by
  induction toks with
  | nil =>
    intro comp ids adc bg comp1 ids1 adc1 h hinv hbg
    unfold processTokens at h
    cases bg with
    | some g => simp at h
    | none =>
      simp at h
      obtain ⟨h1, h2, h3⟩ := h
      subst h1
      subst h2
      exact hinv
  | cons tok rest ih =>
    intro comp ids adc bg comp1 ids1 adc1 h hinv hbg
    unfold processTokens at h
    split at h
    · cases bg with
      | some g => simp at h
      | none =>
        refine ih _ _ _ _ _ _ _ h hinv ?_
        intro g hg x hx
        simp at hg
        subst hg
        simp at hx
    · split at h
      · cases bg with
        | none => simp at h
        | some g =>
          cases g with
          | nil => simp at h
          | cons a gs =>
            refine ih _ _ _ _ _ _ _ h ?_ ?_
            · intro x hx
              rw [compAxes_append] at hx
              rcases List.mem_append.mp hx with hx1 | hx1
              · exact hinv x hx1
              · simp [compAxes] at hx1
                refine hbg (a :: gs) rfl x ?_
                simpa using hx1
            · intro g2 hg2
              simp at hg2
      · rcases han : add_axis_name comp ids bg tok with e | ⟨c2, i2, b2⟩
        · rw [han] at h; simp at h
        · rw [han] at h
          simp only [] at h
          rcases add_axis_name_cases comp ids bg tok c2 i2 b2 han with
            ⟨hc, hi, hb, hbg2⟩ | ⟨g, hbg2, hc, hi, hb⟩ | ⟨hbg2, hc, hi, hb⟩
          · subst hc; subst hb; subst hi
            refine ih _ _ _ _ _ _ _ h ?_ ?_
            · intro x hx
              rw [compAxes_append] at hx
              rcases List.mem_append.mp hx with hx1 | hx1
              · exact hinv x hx1
              · simp [compAxes] at hx1
            · intro g2 hg2
              simp at hg2
          · subst hc; subst hb; subst hi
            refine ih _ _ _ _ _ _ _ h ?_ ?_
            · intro x hx
              exact addIfNew_mem _ _ _ (hinv x hx)
            · intro g2 hg2 x hx
              simp at hg2
              subst hg2
              rcases List.mem_append.mp hx with hx1 | hx1
              · exact addIfNew_mem _ _ _ (hbg g (by rw [hbg2]) x hx1)
              · simp at hx1
                subst hx1
                exact addIfNew_self _ _
          · subst hc; subst hb; subst hi
            refine ih _ _ _ _ _ _ _ h ?_ ?_
            · intro x hx
              rw [compAxes_append] at hx
              rcases List.mem_append.mp hx with hx1 | hx1
              · exact addIfNew_mem _ _ _ (hinv x hx1)
              · simp [compAxes] at hx1
                subst hx1
                exact addIfNew_self _ _
            · intro g2 hg2
              simp at hg2

/-- Parser invariant: every axis name occurring in a parsed composition
is in the parsed identifier set. -/
theorem parse_axes (e : String) (pe : ParsedExpression)
    (h : ParsedExpression.parse e = .ok pe) :
    ∀ x ∈ compAxes pe.composition, x ∈ pe.identifiers := by
  unfold ParsedExpression.parse at h
  split at h
  · simp at h
  · split at h
    · simp at h
    · simp only [] at h
      rcases htk : tokenizeGo (if decide (countTriple e.toList > 0) = true then
        replaceTriple e.toList else e.toList) "" [] with e1 | toks
      · rw [htk] at h; simp at h
      · rw [htk] at h
        simp only [] at h
        rcases hpt : processTokens toks [] [] 0 none with e2 | ⟨comp, ids, adc⟩
        · rw [hpt] at h; simp at h
        · rw [hpt] at h
          simp at h
          have := processTokens_axes toks [] [] 0 none comp ids adc hpt
            (by intro x hx; simp [compAxes] at hx) (by intro g hg; simp at hg)
          rw [← h]
          exact this

/-- Lookup after an update: the updated key maps to the new value,
other keys are unchanged. -/
theorem dictGet_dictSet (d : Dict) (k q : String) (v : Nat) :
    dictGet (dictSet d k v) q = if k = q then some v else dictGet d q := by
  induction d with
  | nil =>
    simp [dictSet, dictGet]
  | cons kv rest ih =>
    obtain ⟨k1, v1⟩ := kv
    by_cases h1 : k1 = k
    · subst h1
      simp [dictSet, dictGet]
      by_cases h2 : k1 = q
      · subst h2; simp
      · simp [h2]
    · simp [dictSet, h1, dictGet]
      by_cases h2 : k1 = q
      · subst h2
        simp [dictGet]
        rw [if_neg (fun h3 => h1 h3.symm)]
      · simp [dictGet, h2, ih]

/-- Updating both dicts at the same key preserves agreement off `z`. -/
theorem agreeExcept_set (z : String) (d1 d2 : Dict) (k : String) (v : Nat)
    (h : agreeExcept z d1 d2) : agreeExcept z (dictSet d1 k v) (dictSet d2 k v) := by
  intro q hq
  rw [dictGet_dictSet, dictGet_dictSet]
  split
  · rfl
  · exact h q hq

/-- Membership tests agree off `z`. -/
theorem dictMem_agree (z : String) (d1 d2 : Dict) (k : String) (h : agreeExcept z d1 d2)
    (hk : k ≠ z) : dictMem d1 k = dictMem d2 k := by
  unfold dictMem
  rw [h k hk]

/-- Prepending an entry for `z` leaves every other lookup unchanged. -/
theorem agree_cons_self (z : String) (v : Nat) (ns : Dict) :
    agreeExcept z ((z, v) :: ns) ns := by
  intro k hk
  have hne : ¬ z = k := fun h => hk h.symm
  simp [dictGet, hne]

/-- The shape-resolver loop treats dicts that agree off an unused name
`z` identically: same error, or dicts again agreeing off `z`. -/
theorem gsdGo_agree (z : String) (shape : List Nat) (full : List CompElem) :
    ∀ (comp : List CompElem) (d1 d2 : Dict) (cd : Nat),
      (∀ x ∈ compAxes comp, x ≠ z) →
      agreeExcept z d1 d2 →
      exceptDictAgree z (gsdGo shape full comp d1 cd) (gsdGo shape full comp d2 cd) := by
  intro comp
  induction comp with
  | nil => intro d1 d2 cd hax hag; exact hag
  | cons el rest ih =>
    intro d1 d2 cd hax hag
    have haxr : ∀ x ∈ compAxes rest, x ≠ z := by
      intro x hx
      apply hax
      cases el with
      | group g =>
        simp [compAxes]
        exact Or.inr hx
      | ellipsis => exact hx
    cases el with
    | ellipsis =>
      rw [gsdGo]
      rw [gsdGo]
      split
      · exact rfl
      · exact ih _ _ _ haxr hag
    | group item =>
      have haxi : ∀ x ∈ item, x ≠ z := by
        intro x hx
        apply hax
        simp [compAxes]
        exact Or.inl hx
      rw [gsdGo]
      rw [gsdGo]
      rcases hpi : pyIndex shape cd with e | total
      · exact rfl
      · simp only []
        rcases item with _ | ⟨a, _ | ⟨b, t⟩⟩
        · simp only [List.filter_nil, List.map_nil]
          split
          · exact rfl
          · exact ih _ _ _ haxr hag
        · simp only []
          have hga : dictGet d1 a = dictGet d2 a := hag a (haxi a (by simp))
          rw [hga]
          rcases hg2 : dictGet d2 a with _ | v
          · simp only [hg2]
            exact ih _ _ _ haxr (agreeExcept_set z d1 d2 a total hag)
          · simp only [hg2]
            split
            · exact rfl
            · exact ih _ _ _ haxr hag
        · simp only []
          have hmem : ∀ x ∈ a :: b :: t, dictMem d1 x = dictMem d2 x := fun x hx =>
            dictMem_agree z d1 d2 x hag (haxi x hx)
          have hfilt : List.filter (fun dim => ¬ dictMem d1 dim) (a :: b :: t) =
              List.filter (fun dim => ¬ dictMem d2 dim) (a :: b :: t) :=
            List.filter_congr (fun x hx => by rw [hmem x hx])
          have hkf : List.filter (fun dim => dictMem d1 dim) (a :: b :: t) =
              List.filter (fun dim => dictMem d2 dim) (a :: b :: t) :=
            List.filter_congr (fun x hx => by rw [hmem x hx])
          have hmapall : List.map (fun dim => (dictGet d1 dim).getD 0) (a :: b :: t) =
              List.map (fun dim => (dictGet d2 dim).getD 0) (a :: b :: t) :=
            List.map_congr_left (fun x hx => by rw [hag x (haxi x hx)])
          have hmapf : List.map (fun dim => (dictGet d1 dim).getD 0)
              (List.filter (fun dim => dictMem d2 dim) (a :: b :: t)) =
              List.map (fun dim => (dictGet d2 dim).getD 0)
              (List.filter (fun dim => dictMem d2 dim) (a :: b :: t)) :=
            List.map_congr_left (fun x hx => by
              rw [hag x (haxi x (List.mem_of_mem_filter hx))])
          rw [hfilt, hkf, hmapall, hmapf]
          rcases hu : List.filter (fun dim => ¬ dictMem d2 dim) (a :: b :: t) with
            _ | ⟨u, _ | ⟨u2, us⟩⟩
          · simp only [hu]
            split
            · exact rfl
            · exact ih _ _ _ haxr hag
          · simp only [hu]
            split
            · exact rfl
            · exact ih _ _ _ haxr (agreeExcept_set z d1 d2 u _ hag)
          · simp only [hu]
            exact rfl

/-- The inner source-group walk is identical under dicts agreeing off
an unused name. -/
theorem cosSourceAxes_agree (z : String) (d1 d2 : Dict) (hag : agreeExcept z d1 d2) :
    ∀ (axes : List String) (ish : List Nat) (spos : Dict) (cd : Nat),
      (∀ x ∈ axes, x ≠ z) →
      cosSourceAxes d1 axes ish spos cd = cosSourceAxes d2 axes ish spos cd := by
  intro axes
  induction axes with
  | nil => intro ish spos cd hax; rfl
  | cons a t ih =>
    intro ish spos cd hax
    rw [cosSourceAxes, cosSourceAxes]
    unfold pyDictGetKE
    rw [hag a (hax a (by simp))]
    rcases dictGet d2 a with _ | v
    · rfl
    · simp only []
      exact ih _ _ _ (fun x hx => hax x (by simp [hx]))

/-- Pass 1 of the output planner is identical under dicts agreeing off
an unused name. -/
theorem cosSource_agree (z : String) (shape : List Nat) (full : List CompElem)
    (d1 d2 : Dict) (hag : agreeExcept z d1 d2) :
    ∀ (comp : List CompElem) (ish : List Nat) (spos : Dict) (edims : Option (List Nat))
      (cd : Nat),
      (∀ x ∈ compAxes comp, x ≠ z) →
      cosSource shape full d1 comp ish spos edims cd =
        cosSource shape full d2 comp ish spos edims cd := by
  intro comp
  induction comp with
  | nil => intro ish spos edims cd hax; rfl
  | cons el rest ih =>
    intro ish spos edims cd hax
    have haxr : ∀ x ∈ compAxes rest, x ≠ z := by
      intro x hx
      apply hax
      cases el with
      | group g => simp [compAxes]; exact Or.inr hx
      | ellipsis => exact hx
    cases el with
    | ellipsis =>
      rw [cosSource, cosSource]
      exact ih _ _ _ _ haxr
    | group item =>
      have haxi : ∀ x ∈ item, x ≠ z := by
        intro x hx
        apply hax
        simp [compAxes]
        exact Or.inl hx
      rcases item with _ | ⟨a, _ | ⟨b, t⟩⟩
      · simp only [cosSource]
        rw [cosSourceAxes_agree z d1 d2 hag [] ish spos cd (by simp)]
        rcases cosSourceAxes d2 [] ish spos cd with e | ⟨i1, s1, c1⟩
        · rfl
        · exact ih _ _ _ _ haxr
      · simp only [cosSource]
        unfold pyDictGetKE
        rw [hag a (haxi a (by simp))]
        rcases dictGet d2 a with _ | v
        · rfl
        · simp only []
          exact ih _ _ _ _ haxr
      · simp only [cosSource]
        rw [cosSourceAxes_agree z d1 d2 hag (a :: b :: t) ish spos cd haxi]
        rcases cosSourceAxes d2 (a :: b :: t) ish spos cd with e | ⟨i1, s1, c1⟩
        · rfl
        · exact ih _ _ _ _ haxr

/-- Multi-name lookup is identical under dicts agreeing off an unused
name. -/
theorem lookupAll_agree (z : String) (d1 d2 : Dict) (hag : agreeExcept z d1 d2) :
    ∀ (axes : List String), (∀ x ∈ axes, x ≠ z) → lookupAll d1 axes = lookupAll d2 axes := by
  intro axes
  induction axes with
  | nil => intro hax; rfl
  | cons a t ih =>
    intro hax
    rw [lookupAll, lookupAll]
    rw [hag a (hax a (by simp))]
    rcases dictGet d2 a with _ | v
    · rfl
    · rw [ih (fun x hx => hax x (by simp [hx]))]

/-- Pass 2 of the output planner is identical under dicts agreeing off
an unused name. -/
theorem cosTarget_agree (z : String) (shape : List Nat) (d1 d2 : Dict) (spos : Dict)
    (edims : Option (List Nat)) (hag : agreeExcept z d1 d2) :
    ∀ (comp : List CompElem) (fsh perm : List Nat),
      (∀ x ∈ compAxes comp, x ≠ z) →
      cosTarget shape d1 spos edims comp fsh perm =
        cosTarget shape d2 spos edims comp fsh perm := by
  intro comp
  induction comp with
  | nil => intro fsh perm hax; rfl
  | cons el rest ih =>
    intro fsh perm hax
    have haxr : ∀ x ∈ compAxes rest, x ≠ z := by
      intro x hx
      apply hax
      cases el with
      | group g => simp [compAxes]; exact Or.inr hx
      | ellipsis => exact hx
    cases el with
    | ellipsis =>
      simp only [cosTarget]
      rcases edims with _ | dims
      · rfl
      · simp only []
        rcases indexAll shape dims with e | szs
        · rfl
        · exact ih _ _ haxr
    | group item =>
      have haxi : ∀ x ∈ item, x ≠ z := by
        intro x hx
        apply hax
        simp [compAxes]
        exact Or.inl hx
      rcases item with _ | ⟨a, _ | ⟨b, t⟩⟩
      · simp only [cosTarget]
        rcases lookupAll spos [] with e | l2
        · rfl
        · exact ih _ _ haxr
      · simp only [cosTarget]
        rw [show dictMem d1 a = dictMem d2 a from dictMem_agree z d1 d2 a hag (haxi a (by simp))]
        split
        · rfl
        · unfold pyDictGetKE
          rcases dictGet spos a with _ | p
          · rfl
          · simp only []
            rw [hag a (haxi a (by simp))]
            exact ih _ _ haxr
      · simp only [cosTarget]
        rw [lookupAll_agree z d1 d2 hag (a :: b :: t) haxi]
        rcases lookupAll d2 (a :: b :: t) with e | sizes
        · rfl
        · simp only []
          rcases lookupAll spos (a :: b :: t) with e | ps
          · rfl
          · simp only []
            exact ih _ _ haxr

/-- The output planner is identical under dicts agreeing off an unused
name. -/
theorem cos_agree (z : String) (tensor : Tensor) (tp sp : ParsedExpression) (d1 d2 : Dict)
    (hag : agreeExcept z d1 d2)
    (haxs : ∀ x ∈ compAxes sp.composition, x ≠ z)
    (haxt : ∀ x ∈ compAxes tp.composition, x ≠ z) :
    _compute_output_shape tensor tp sp d1 = _compute_output_shape tensor tp sp d2 := by
  unfold _compute_output_shape
  rw [cosSource_agree z tensor.shape sp.composition d1 d2 hag sp.composition [] [] none 0 haxs]
  rcases cosSource tensor.shape sp.composition d2 sp.composition [] [] none 0 with
    e | ⟨ish, spos, edims⟩
  · rfl
  · simp only []
    rw [cosTarget_agree z tensor.shape d1 d2 spos edims hag tp.composition [] [] haxt]

/-- C8: adding to `named_sizes` an extra key with a positive value whose
name appears in neither pattern half does not change the observable
result: the call returns the same array or raises the same error, so
unused size hints are silently ignored. -/
theorem rearrange_unused_size_hint
    (tensor : Tensor) (named_sizes : Dict) (pattern : String) (z : String) (v : Nat)
    (hv : 0 < v)
    (hz : ∀ (source target : List Char),
      pySplitArrow pattern.toList = [source, target] →
      (∀ sp, ParsedExpression.parse (String.mk (pyStrip source)) = .ok sp →
        z ∉ sp.identifiers) ∧
      (∀ tp, ParsedExpression.parse (String.mk (pyStrip target)) = .ok tp →
        z ∉ tp.identifiers)) :
    rearrange tensor pattern ((z, v) :: named_sizes) = rearrange tensor pattern named_sizes := by
  unfold rearrange
  rcases hp : pySplitArrow pattern.toList with _ | ⟨s, _ | ⟨t, _ | ⟨u, rest⟩⟩⟩
  · rfl
  · rfl
  · rw [if_neg (by simp)]
    rw [if_neg (by simp)]
    simp only []
    rcases hsp : ParsedExpression.parse (String.mk (pyStrip s)) with e | sp
    · rfl
    · rcases htp : ParsedExpression.parse (String.mk (pyStrip t)) with e | tp
      · rfl
      · simp only []
        have hzs : z ∉ sp.identifiers := (hz s t hp).1 sp hsp
        have hzt : z ∉ tp.identifiers := (hz s t hp).2 tp htp
        have haxs : ∀ x ∈ compAxes sp.composition, x ≠ z := by
          intro x hx he
          subst he
          exact hzs (parse_axes _ _ hsp x hx)
        have haxt : ∀ x ∈ compAxes tp.composition, x ≠ z := by
          intro x hx he
          subst he
          exact hzt (parse_axes _ _ htp x hx)
        rcases hdc : dimCheck sp tensor.shape.length with e | u1
        · rfl
        · simp only []
          have hrel := gsdGo_agree z tensor.shape sp.composition sp.composition
            ((z, v) :: named_sizes) named_sizes 0 haxs (agree_cons_self z v named_sizes)
          rcases hr1 : gsdGo tensor.shape sp.composition sp.composition
              ((z, v) :: named_sizes) 0 with e1 | dd1 <;>
            rcases hr2 : gsdGo tensor.shape sp.composition sp.composition named_sizes 0 with
              e2 | dd2 <;>
            rw [hr1, hr2] at hrel
          · have he : e1 = e2 := hrel
            subst he
            rw [show _get_shape_dict tensor sp ((z, v) :: named_sizes) = .error e1 from hr1,
              show _get_shape_dict tensor sp named_sizes = .error e1 from hr2]
          · exact absurd hrel (by simp [exceptDictAgree])
          · exact absurd hrel (by simp [exceptDictAgree])
          · rw [show _get_shape_dict tensor sp ((z, v) :: named_sizes) = .ok dd1 from hr1,
              show _get_shape_dict tensor sp named_sizes = .ok dd2 from hr2]
            simp only []
            rcases hic : idCheck sp tp with e | u2
            · rfl
            · simp only []
              rw [cos_agree z tensor tp sp dd1 dd2 hrel haxs haxt]
  · rfl

/-- Witness for `rearrange_unused_size_hint`: the unused hint `zz` does
not change the result of "a b c -> c b a". -/
theorem rearrange_unused_size_hint_witness :
    rearrange ⟨[2, 3, 4], List.replicate 24 0⟩ "a b c -> c b a" [("zz", 7)] =
      rearrange ⟨[2, 3, 4], List.replicate 24 0⟩ "a b c -> c b a" [] :=
  rearrange_unused_size_hint ⟨[2, 3, 4], List.replicate 24 0⟩ [] "a b c -> c b a" "zz" 7
    (by decide)
    (by
      intro source target hp
      rw [show pySplitArrow "a b c -> c b a".toList =
        [['a', ' ', 'b', ' ', 'c', ' '], [' ', 'c', ' ', 'b', ' ', 'a']] from rfl] at hp
      simp at hp
      obtain ⟨hp1, hp2⟩ := hp
      subst hp1
      subst hp2
      constructor
      · intro sp hsp
        rw [show ParsedExpression.parse (String.mk (pyStrip ['a', ' ', 'b', ' ', 'c', ' '])) =
          .ok ⟨false, ["a", "b", "c"], [.group ["a"], .group ["b"], .group ["c"]], 3⟩
          from rfl] at hsp
        cases hsp
        decide
      · intro tp htp
        rw [show ParsedExpression.parse (String.mk (pyStrip [' ', 'c', ' ', 'b', ' ', 'a'])) =
          .ok ⟨false, ["c", "b", "a"], [.group ["c"], .group ["b"], .group ["a"]], 3⟩
          from rfl] at htp
        cases htp
        decide)

/-- C1, counterexample: an exception that is not an `EinopsError`
propagates to the caller: with positive sizes and a well-formed pattern,
"a b ... -> a b" on a rank-1 array raises an uncaught `IndexError`
(the ellipsis makes the dimension-count check vacuous, and the shape
resolver reads past the end of `tensor.shape`). -/
theorem rearrange_uncaught_index_error :
    rearrange ⟨[5], List.replicate 5 0⟩ "a b ... -> a b" [] = .error .indexError ∧
    okOrEinops (rearrange ⟨[5], List.replicate 5 0⟩ "a b ... -> a b" []) = false :=
  ⟨rfl, rfl⟩

/-- C1 (amended): when the pattern splits into exactly two halves on
`->` and both halves are ellipsis-free, every call returns an array or
raises an `EinopsError`; exceptions of other types can escape only
through ellipsis patterns (`IndexError`, `NameError`) or patterns with
two or more `->` (`ValueError`). -/
theorem rearrange_no_ellipsis_ok_or_einops
    (tensor : Tensor) (named_sizes : Dict) (pattern : String)
    (source target : List Char) (sp tp : ParsedExpression)
    (hsplit : pySplitArrow pattern.toList = [source, target])
    (hsp : ParsedExpression.parse (String.mk (pyStrip source)) = .ok sp)
    (htp : ParsedExpression.parse (String.mk (pyStrip target)) = .ok tp)
    (hse : sp.has_ellipsis = false)
    (hsne : CompElem.ellipsis ∉ sp.composition)
    (htne : CompElem.ellipsis ∉ tp.composition) :
    okOrEinops (rearrange tensor pattern named_sizes) = true := by
  unfold rearrange
  rw [hsplit, if_neg (by simp)]
  simp only [hsp, htp]
  rcases dimCheck_classify sp tensor.shape.length with hdc | ⟨m, hdc⟩
  · rw [hdc]
    simp only []
    have hadc : sp.actual_dim_count = tensor.shape.length := by
      by_cases hc : (sp.actual_dim_count : Int) = (tensor.shape.length : Int)
      · omega
      · exfalso
        simp only [dimCheck, hse, Bool.false_eq_true, if_false] at hdc
        rw [if_pos (by simpa using hc)] at hdc
        rcases Nat.lt_or_ge sp.actual_dim_count tensor.shape.length with h2 | h2
        · rw [if_pos (by omega)] at hdc
          simp at hdc
        · rw [if_neg (by omega)] at hdc
          simp at hdc
    have hb : 0 + sp.composition.length ≤ tensor.shape.length := by
      rw [← parse_adc _ _ hsp]
      omega
    rcases gsdGo_no_ellipsis_classify tensor.shape sp.composition sp.composition named_sizes 0
      hsne hb with ⟨d, hg⟩ | ⟨m, hg⟩
    · rw [show _get_shape_dict tensor sp named_sizes = .ok d from hg]
      simp only []
      rcases idCheck_classify sp tp with hic | ⟨m2, hic⟩
      · rw [hic]
        simp only []
        rcases cos_classify tensor tp sp d hsne htne with
          ⟨⟨ish, fsh, perm⟩, hc⟩ | ⟨m3, hc⟩ | ⟨k, hc⟩
        · rw [hc]
          simp only []
          exact executeRearrange_okOrEinops tensor ish fsh perm
        · rw [hc]; rfl
        · rw [hc]; rfl
      · rw [hic]; rfl
    · rw [show _get_shape_dict tensor sp named_sizes = .error (.einops m) from hg]
      rfl
  · rw [hdc]; rfl

/-- Witness for `rearrange_no_ellipsis_ok_or_einops` at the concrete
call "a -> a" on a rank-1 array. -/
theorem rearrange_no_ellipsis_ok_or_einops_witness :
    okOrEinops (rearrange ⟨[2], [1, 2]⟩ "a -> a" []) = true :=
  rearrange_no_ellipsis_ok_or_einops ⟨[2], [1, 2]⟩ [] "a -> a" ['a', ' '] [' ', 'a']
    ⟨false, ["a"], [.group ["a"]], 1⟩ ⟨false, ["a"], [.group ["a"]], 1⟩
    rfl rfl rfl rfl (by decide) (by decide)

/-- Strict upper bound for a row-major flat index built from bounded
multi-index components. -/
theorem flat3_lt (s0 s1 s2 i0 i1 i2 : Nat) (h0 : i0 < s0) (h1 : i1 < s1) (h2 : i2 < s2) :
    i0 * (s1 * s2) + (i1 * s2 + i2) < s0 * (s1 * s2) := by
  have e1 : (i1 + 1) * s2 = i1 * s2 + s2 := by ring
  have e2 : (i0 + 1) * (s1 * s2) = i0 * (s1 * s2) + s1 * s2 := by ring
  have hb : (i1 + 1) * s2 ≤ s1 * s2 := Nat.mul_le_mul_right _ (by omega)
  have hc : (i0 + 1) * (s1 * s2) ≤ s0 * (s1 * s2) := Nat.mul_le_mul_right _ (by omega)
  omega

/-- Division of a flat index recovers the leading component. -/
theorem unflat3_div (m i0 r : Nat) (hr : r < m) : (i0 * m + r) / m = i0 := by
  have hm : 0 < m := by omega
  rw [Nat.add_comm, Nat.add_mul_div_right _ _ hm, Nat.div_eq_of_lt hr]
  omega

/-- Remainder of a flat index recovers the trailing components. -/
theorem unflat3_mod (m i0 r : Nat) (hr : r < m) : (i0 * m + r) % m = r := by
  rw [Nat.add_comm, Nat.add_mul_mod_self_right, Nat.mod_eq_of_lt hr]

/-- Every flat index below the element count of a rank-3 shape is the
row-major flattening of a unique bounded multi-index. -/
theorem decomp3 (s0 s1 s2 g : Nat) (hg : g < s0 * (s1 * s2)) :
    ∃ i0 i1 i2, i0 < s0 ∧ i1 < s1 ∧ i2 < s2 ∧ g = i0 * (s1 * s2) + (i1 * s2 + i2) := by
  have hm : 0 < s1 * s2 := by
    rcases Nat.eq_zero_or_pos (s1 * s2) with h | h
    · rw [h, Nat.mul_zero] at hg; omega
    · exact h
  have hs2 : 0 < s2 := by
    rcases Nat.eq_zero_or_pos s2 with h | h
    · rw [h, Nat.mul_zero] at hm; omega
    · exact h
  refine ⟨g / (s1 * s2), g % (s1 * s2) / s2, g % (s1 * s2) % s2, ?_, ?_, ?_, ?_⟩
  · rw [Nat.div_lt_iff_lt_mul hm]; exact hg
  · rw [Nat.div_lt_iff_lt_mul hs2]; exact Nat.mod_lt _ hm
  · exact Nat.mod_lt _ hs2
  · have e2 : s2 * (g % (s1 * s2) / s2) + g % (s1 * s2) % s2 = g % (s1 * s2) :=
      Nat.div_add_mod _ s2
    calc g = s1 * s2 * (g / (s1 * s2)) + g % (s1 * s2) := (Nat.div_add_mod g (s1 * s2)).symm
    _ = s1 * s2 * (g / (s1 * s2)) + (s2 * (g % (s1 * s2) / s2) + g % (s1 * s2) % s2) := by
        rw [e2]
    _ = g / (s1 * s2) * (s1 * s2) + (g % (s1 * s2) / s2 * s2 + g % (s1 * s2) % s2) := by ring

/-- The axis-reversing permutation scatters a rank-3 multi-index by
reversing it. -/
theorem scatter_210 (p q r : Nat) : scatterIdx [2, 1, 0] [p, q, r] = [r, q, p] := rfl

/-- Closed form of `unflattenIdx` on a rank-3 shape. -/
theorem unflatten3 (s0 s1 s2 g : Nat) : unflattenIdx [s0, s1, s2] g =
    [g / (s1 * s2), g % (s1 * s2) / s2, g % (s1 * s2) % s2] := by
  simp [unflattenIdx, npProd]

/-- Closed form of `flattenIdx` on a rank-3 shape. -/
theorem flatten3 (s0 s1 s2 p q r : Nat) : flattenIdx [s0, s1, s2] [p, q, r] =
    p * (s1 * s2) + (q * s2 + r) := by
  simp [flattenIdx, npProd]

/-- Bound for the trailing two components of a flat rank-3 index. -/
theorem inner_lt (s1 s2 i1 i2 : Nat) (h1 : i1 < s1) (h2 : i2 < s2) :
    i1 * s2 + i2 < s1 * s2 := by
  have e1 : (i1 + 1) * s2 = i1 * s2 + s2 := by ring
  have hb : (i1 + 1) * s2 ≤ s1 * s2 := Nat.mul_le_mul_right _ (by omega)
  omega

/-- The argument index of the axis-reversing transpose at the flattened
image of a bounded rank-3 multi-index. -/
theorem idx_eval (s0 s1 s2 i0 i1 i2 : Nat) (h1 : i1 < s1) (h2 : i2 < s2) :
    flattenIdx [s2, s1, s0] (scatterIdx [2, 1, 0]
      (unflattenIdx [s0, s1, s2] (i0 * (s1 * s2) + (i1 * s2 + i2)))) =
      i2 * (s1 * s0) + (i1 * s0 + i0) := by
  have hr : i1 * s2 + i2 < s1 * s2 := inner_lt s1 s2 i1 i2 h1 h2
  rw [unflatten3, unflat3_div _ _ _ hr, unflat3_mod _ _ _ hr,
    unflat3_div _ _ _ h2, unflat3_mod _ _ _ h2, scatter_210, flatten3]

/-- Element access into transposed data, in terms of the index maps. -/
theorem transposeData_getD (shape perm : List Nat) (d : List Int) (g : Nat)
    (hg : g < npProd (permuteShape perm shape)) :
    (transposeData shape perm d).getD g 0 =
      d.getD (flattenIdx shape (scatterIdx perm (unflattenIdx (permuteShape perm shape) g))) 0 := by
  unfold transposeData
  rw [List.getD_eq_getElem _ _ (by simpa using hg)]
  simp

/-- Applying the axis-reversing transpose twice returns the original
row-major data. -/
theorem double_reverse_transpose (s0 s1 s2 : Nat) (d : List Int)
    (hd : d.length = npProd [s0, s1, s2]) :
    transposeData [s2, s1, s0] [2, 1, 0] (transposeData [s0, s1, s2] [2, 1, 0] d) = d := by
  have hlen_outer : (transposeData [s2, s1, s0] [2, 1, 0]
      (transposeData [s0, s1, s2] [2, 1, 0] d)).length = npProd [s0, s1, s2] := by
    simp [transposeData]
    rfl
  apply List.ext_getElem
  · rw [hlen_outer, hd]
  · intro g hg1 hg2
    rw [← List.getD_eq_getElem _ 0 hg1, ← List.getD_eq_getElem _ 0 hg2]
    have hglt : g < s0 * (s1 * s2) := by
      rw [hlen_outer] at hg1
      simpa [npProd] using hg1
    obtain ⟨i0, i1, i2, h0, h1, h2, hge⟩ := decomp3 s0 s1 s2 g hglt
    subst hge
    rw [transposeData_getD _ _ _ _ (by simpa [npProd, permuteShape] using hglt)]
    simp only [show permuteShape [2, 1, 0] [s2, s1, s0] = [s0, s1, s2] from rfl]
    rw [idx_eval s0 s1 s2 i0 i1 i2 h1 h2]
    have hf : i2 * (s1 * s0) + (i1 * s0 + i0) < s2 * (s1 * s0) :=
      flat3_lt s2 s1 s0 i2 i1 i0 h2 h1 h0
    rw [transposeData_getD _ _ _ _ (by simpa [npProd, permuteShape] using hf)]
    simp only [show permuteShape [2, 1, 0] [s0, s1, s2] = [s2, s1, s0] from rfl]
    rw [idx_eval s2 s1 s0 i2 i1 i0 h1 h0]

/-- Symbolic evaluation of `rearrange` with pattern "a b c -> c b a" on
an arbitrary rank-3 array: the result reverses the shape and applies
the axis-reversing transpose to the data. -/
theorem rearrange_cba (x y z : Nat) (d : List Int) :
    rearrange ⟨[x, y, z], d⟩ "a b c -> c b a" [] =
      .ok ⟨[z, y, x], transposeData [x, y, z] [2, 1, 0] d⟩ := by
  have hne2 : ¬ (npProd [x, y, z] ≠ npProd [z, y, x]) := by
    simp [npProd]; ring
  have h1 : Tensor.reshape ⟨[x, y, z], d⟩ [x, y, z] = .ok ⟨[x, y, z], d⟩ := by
    simp [Tensor.reshape, Tensor.size]
  have h3 : Tensor.transpose ⟨[x, y, z], d⟩ [2, 1, 0] =
      .ok ⟨[z, y, x], transposeData [x, y, z] [2, 1, 0] d⟩ := by
    unfold Tensor.transpose
    rw [if_pos (show isPermutationList [2, 1, 0] (Tensor.mk [x, y, z] d).shape.length = true
      from rfl)]
    rfl
  have h2 : Tensor.reshape ⟨[z, y, x], transposeData [x, y, z] [2, 1, 0] d⟩ [z, y, x] =
      .ok ⟨[z, y, x], transposeData [x, y, z] [2, 1, 0] d⟩ := by
    simp [Tensor.reshape, Tensor.size]
  have hexec : executeRearrange ⟨[x, y, z], d⟩ [x, y, z] [z, y, x] [2, 1, 0] =
      .ok ⟨[z, y, x], transposeData [x, y, z] [2, 1, 0] d⟩ := by
    simp only [executeRearrange]
    rw [if_neg (by decide)]
    rw [h1]
    simp only [h3]
    simp only [h2]
  have hcos : _compute_output_shape ⟨[x, y, z], d⟩
      ⟨false, ["c", "b", "a"], [.group ["c"], .group ["b"], .group ["a"]], 3⟩
      ⟨false, ["a", "b", "c"], [.group ["a"], .group ["b"], .group ["c"]], 3⟩
      [("a", x), ("b", y), ("c", z)] = .ok ([x, y, z], [z, y, x], [2, 1, 0]) := by
    have e1 : _compute_output_shape ⟨[x, y, z], d⟩
        ⟨false, ["c", "b", "a"], [.group ["c"], .group ["b"], .group ["a"]], 3⟩
        ⟨false, ["a", "b", "c"], [.group ["a"], .group ["b"], .group ["c"]], 3⟩
        [("a", x), ("b", y), ("c", z)] =
        if npProd [x, y, z] ≠ npProd [z, y, x] then
          .error (.einops ("Cannot reshape array of size " ++ toString (npProd [x, y, z]) ++
            " into shape " ++ pyReprNatTuple [z, y, x]))
        else .ok ([x, y, z], [z, y, x], [2, 1, 0]) := rfl
    rw [e1, if_neg hne2]
  unfold rearrange
  simp only [show pySplitArrow "a b c -> c b a".toList =
    [['a', ' ', 'b', ' ', 'c', ' '], [' ', 'c', ' ', 'b', ' ', 'a']] from rfl]
  rw [if_neg (by decide)]
  simp only [show ParsedExpression.parse (String.mk (pyStrip ['a', ' ', 'b', ' ', 'c', ' '])) =
    .ok ⟨false, ["a", "b", "c"], [.group ["a"], .group ["b"], .group ["c"]], 3⟩ from rfl]
  simp only [show ParsedExpression.parse (String.mk (pyStrip [' ', 'c', ' ', 'b', ' ', 'a'])) =
    .ok ⟨false, ["c", "b", "a"], [.group ["c"], .group ["b"], .group ["a"]], 3⟩ from rfl]
  simp only [show dimCheck ⟨false, ["a", "b", "c"], [.group ["a"], .group ["b"], .group ["c"]], 3⟩
    ([x, y, z] : List Nat).length = .ok () from rfl]
  simp only [show _get_shape_dict ⟨[x, y, z], d⟩
    ⟨false, ["a", "b", "c"], [.group ["a"], .group ["b"], .group ["c"]], 3⟩ [] =
    .ok [("a", x), ("b", y), ("c", z)] from rfl]
  simp only [show idCheck ⟨false, ["a", "b", "c"], [.group ["a"], .group ["b"], .group ["c"]], 3⟩
    ⟨false, ["c", "b", "a"], [.group ["c"], .group ["b"], .group ["a"]], 3⟩ = .ok () from rfl]
  simp only [hcos]
  exact hexec

/-- Symbolic evaluation of `rearrange` with pattern "c b a -> a b c" on
an arbitrary rank-3 array: the same shape-reversing, axis-reversing
transformation as "a b c -> c b a". -/
theorem rearrange_cba_inv (x y z : Nat) (d : List Int) :
    rearrange ⟨[x, y, z], d⟩ "c b a -> a b c" [] =
      .ok ⟨[z, y, x], transposeData [x, y, z] [2, 1, 0] d⟩ := by
  have hne2 : ¬ (npProd [x, y, z] ≠ npProd [z, y, x]) := by
    simp [npProd]; ring
  have h1 : Tensor.reshape ⟨[x, y, z], d⟩ [x, y, z] = .ok ⟨[x, y, z], d⟩ := by
    simp [Tensor.reshape, Tensor.size]
  have h3 : Tensor.transpose ⟨[x, y, z], d⟩ [2, 1, 0] =
      .ok ⟨[z, y, x], transposeData [x, y, z] [2, 1, 0] d⟩ := by
    unfold Tensor.transpose
    rw [if_pos (show isPermutationList [2, 1, 0] (Tensor.mk [x, y, z] d).shape.length = true
      from rfl)]
    rfl
  have h2 : Tensor.reshape ⟨[z, y, x], transposeData [x, y, z] [2, 1, 0] d⟩ [z, y, x] =
      .ok ⟨[z, y, x], transposeData [x, y, z] [2, 1, 0] d⟩ := by
    simp [Tensor.reshape, Tensor.size]
  have hexec : executeRearrange ⟨[x, y, z], d⟩ [x, y, z] [z, y, x] [2, 1, 0] =
      .ok ⟨[z, y, x], transposeData [x, y, z] [2, 1, 0] d⟩ := by
    simp only [executeRearrange]
    rw [if_neg (by decide)]
    rw [h1]
    simp only [h3]
    simp only [h2]
  have hcos : _compute_output_shape ⟨[x, y, z], d⟩
      ⟨false, ["a", "b", "c"], [.group ["a"], .group ["b"], .group ["c"]], 3⟩
      ⟨false, ["c", "b", "a"], [.group ["c"], .group ["b"], .group ["a"]], 3⟩
      [("c", x), ("b", y), ("a", z)] = .ok ([x, y, z], [z, y, x], [2, 1, 0]) := by
    have e1 : _compute_output_shape ⟨[x, y, z], d⟩
        ⟨false, ["a", "b", "c"], [.group ["a"], .group ["b"], .group ["c"]], 3⟩
        ⟨false, ["c", "b", "a"], [.group ["c"], .group ["b"], .group ["a"]], 3⟩
        [("c", x), ("b", y), ("a", z)] =
        if npProd [x, y, z] ≠ npProd [z, y, x] then
          .error (.einops ("Cannot reshape array of size " ++ toString (npProd [x, y, z]) ++
            " into shape " ++ pyReprNatTuple [z, y, x]))
        else .ok ([x, y, z], [z, y, x], [2, 1, 0]) := rfl
    rw [e1, if_neg hne2]
  unfold rearrange
  simp only [show pySplitArrow "c b a -> a b c".toList =
    [['c', ' ', 'b', ' ', 'a', ' '], [' ', 'a', ' ', 'b', ' ', 'c']] from rfl]
  rw [if_neg (by decide)]
  simp only [show ParsedExpression.parse (String.mk (pyStrip ['c', ' ', 'b', ' ', 'a', ' '])) =
    .ok ⟨false, ["c", "b", "a"], [.group ["c"], .group ["b"], .group ["a"]], 3⟩ from rfl]
  simp only [show ParsedExpression.parse (String.mk (pyStrip [' ', 'a', ' ', 'b', ' ', 'c'])) =
    .ok ⟨false, ["a", "b", "c"], [.group ["a"], .group ["b"], .group ["c"]], 3⟩ from rfl]
  simp only [show dimCheck ⟨false, ["c", "b", "a"], [.group ["c"], .group ["b"], .group ["a"]], 3⟩
    ([x, y, z] : List Nat).length = .ok () from rfl]
  simp only [show _get_shape_dict ⟨[x, y, z], d⟩
    ⟨false, ["c", "b", "a"], [.group ["c"], .group ["b"], .group ["a"]], 3⟩ [] =
    .ok [("c", x), ("b", y), ("a", z)] from rfl]
  simp only [show idCheck ⟨false, ["c", "b", "a"], [.group ["c"], .group ["b"], .group ["a"]], 3⟩
    ⟨false, ["a", "b", "c"], [.group ["a"], .group ["b"], .group ["c"]], 3⟩ = .ok () from rfl]
  simp only [hcos]
  exact hexec

/-- C6: for every 3-dimensional array, applying "a b c -> c b a" and
then "c b a -> a b c" succeeds and returns an array with the same shape
and element values as the input: the reverse permutation round-trips to
the identity. -/
theorem reverse_pattern_round_trip (t : Tensor) (h3 : t.shape.length = 3)
    (hw : t.data.length = npProd t.shape) :
    (rearrange t "a b c -> c b a" []).bind (fun r => rearrange r "c b a -> a b c" []) =
      .ok t := by
  obtain ⟨shape, data⟩ := t
  simp only at h3 hw
  rcases shape with _ | ⟨s0, _ | ⟨s1, _ | ⟨s2, _ | ⟨s3, rest⟩⟩⟩⟩
  · simp at h3
  · simp at h3
  · simp at h3
  · rw [rearrange_cba]
    simp only [Except.bind]
    rw [rearrange_cba_inv]
    rw [double_reverse_transpose s0 s1 s2 data hw]
  · simp at h3

/-- C5 (amended): in every successful call the permutation used is
either the identity sequence over its own (possibly shorter) length —
the reshape-only shortcut, which can silently drop trailing source axes
— or a bijection onto the intermediate shape positions, enforced by the
transpose collaborator; bijectivity onto the full intermediate range is
not guaranteed in the shortcut case. -/
theorem success_perm_identity_or_bijection
    (tensor r : Tensor) (pattern : String) (named_sizes : Dict)
    (source target : List Char) (sp tp : ParsedExpression) (shape_dict : Dict)
    (ish fsh perm : List Nat)
    (hsplit : pySplitArrow pattern.toList = [source, target])
    (hsp : ParsedExpression.parse (String.mk (pyStrip source)) = .ok sp)
    (htp : ParsedExpression.parse (String.mk (pyStrip target)) = .ok tp)
    (hgsd : _get_shape_dict tensor sp named_sizes = .ok shape_dict)
    (hcos : _compute_output_shape tensor tp sp shape_dict = .ok (ish, fsh, perm))
    (hok : rearrange tensor pattern named_sizes = .ok r) :
    perm = List.range perm.length ∨ isPermutationList perm ish.length = true := by
  by_cases hid : perm = List.range perm.length
  · exact Or.inl hid
  · right
    unfold rearrange at hok
    rw [hsplit] at hok
    rw [if_neg (by simp)] at hok
    simp only [hsp, htp] at hok
    rcases hdc : dimCheck sp tensor.shape.length with e | u
    · rw [hdc] at hok; simp at hok
    rw [hdc] at hok
    simp only [hgsd] at hok
    rcases hic : idCheck sp tp with e | u2
    · rw [hic] at hok; simp at hok
    rw [hic] at hok
    simp only [hcos] at hok
    unfold executeRearrange at hok
    rw [if_neg hid] at hok
    rcases hrs : Tensor.reshape tensor ish with e | r1
    · rw [hrs] at hok
      rcases e with m | m | _ | k | _ <;> simp at hok
    rw [hrs] at hok
    have hshape : r1.shape = ish := by
      unfold Tensor.reshape at hrs
      by_cases hc : npProd ish = tensor.size
      · rw [if_pos hc] at hrs
        cases hrs
        rfl
      · rw [if_neg hc] at hrs
        cases hrs
    by_cases hb : isPermutationList perm r1.shape.length = true
    · rw [hshape] at hb
      exact hb
    · unfold Tensor.transpose at hok
      simp [hb] at hok

/-- Witness for `success_perm_identity_or_bijection` at the dropped-axis
call on shape `(2, 1)`, which takes the identity-prefix disjunct. -/
theorem success_perm_identity_or_bijection_witness :
    ([0] : List Nat) = List.range ([0] : List Nat).length ∨
      isPermutationList [0] ([2, 1] : List Nat).length = true :=
  success_perm_identity_or_bijection ⟨[2, 1], [3, 4]⟩ ⟨[2], [3, 4]⟩ "a b -> a" []
    ['a', ' ', 'b', ' '] [' ', 'a']
    ⟨false, ["a", "b"], [.group ["a"], .group ["b"]], 2⟩ ⟨false, ["a"], [.group ["a"]], 1⟩
    [("a", 2), ("b", 1)] [2, 1] [2] [0] rfl rfl rfl rfl rfl rfl

/-- Witness for `reverse_pattern_round_trip` at a concrete rank-3
array. -/
theorem reverse_pattern_round_trip_witness :
    (⟨[1, 2, 2], [10, 11, 12, 13]⟩ : Tensor).shape.length = 3 ∧
    (⟨[1, 2, 2], [10, 11, 12, 13]⟩ : Tensor).data.length = npProd [1, 2, 2] ∧
    (rearrange ⟨[1, 2, 2], [10, 11, 12, 13]⟩ "a b c -> c b a" []).bind
      (fun r => rearrange r "c b a -> a b c" []) = .ok ⟨[1, 2, 2], [10, 11, 12, 13]⟩ :=
  ⟨rfl, rfl, reverse_pattern_round_trip ⟨[1, 2, 2], [10, 11, 12, 13]⟩ rfl rfl⟩

end Einops
